import Mathlib

/-!
Shallow embedding of `src/libANGLE/renderer/vulkan/CommandProcessor.cpp`
(the ANGLE Vulkan command processor) and proofs about it.

Modelling conventions:
* `Serial` values are modelled as natural numbers (ANGLE serials are
  monotonically increasing 64-bit tokens that are never reused, so 64-bit
  wraparound is unreachable and is not modelled).  `Serial.inf` models
  `Serial::Infinite()`, the sentinel greater than every real serial.
* Vulkan handles (command buffers, command pools, fences, swapchains) are
  modelled as natural-number identifiers.
* The GPU/driver is modelled by a completion frontier `completedUpTo`:
  a batch's fence reports signaled exactly when its serial is at most the
  frontier.  A blocking `Fence::wait` raises the frontier to the waited
  serial (the wait returning `VK_SUCCESS`); error results from waits and
  submits are outside the deterministic model.
* Effects that the renderer observes (serial assignment, `vkQueueSubmit`,
  `vkQueuePresentKHR`, fence waits, batch/garbage destruction, recorded
  errors) are emitted as an explicit `Event` trace.
-/

set_option linter.unusedVariables false

namespace CommandProcessorModel

/-- Vulkan result codes that the command processor distinguishes.  All
other error codes are collapsed into `otherError` with their numeric
value. -/
inductive VkResult where
  | VK_SUCCESS
  | VK_NOT_READY
  | VK_SUBOPTIMAL_KHR
  | VK_ERROR_OUT_OF_DATE_KHR
  | VK_ERROR_DEVICE_LOST
  | otherError (code : Int)
deriving DecidableEq, Repr

/-- `Serial`: a monotonically increasing token (`fin n`), with `inf`
modelling `Serial::Infinite()`, greater than every real serial. -/
inductive Serial where
  | fin (n : Nat)
  | inf
deriving DecidableEq, Repr

/-- Order on serials: `Serial.leb a b` is `a <= b`, with `inf` as top. -/
def Serial.leb : Serial → Serial → Bool
  | .fin a, .fin b => a ≤ b
  | .fin _, .inf => true
  | .inf, .fin _ => false
  | .inf, .inf => true

/-- Underlying number of a finite serial (`inf` has no numeric value and
maps to 0; the model only applies this to assigned, hence finite,
serials). -/
def Serial.toNat : Serial → Nat
  | .fin n => n
  | .inf => 0

/-- `vk::CustomTask`: the tag of a `CommandProcessorTask`. -/
inductive CustomTask where
  | Invalid
  | ProcessCommands
  | FlushAndQueueSubmit
  | OneOffQueueSubmit
  | Present
  | FinishToSerial
  | CheckCompletedCommands
  | Exit
deriving DecidableEq, Repr

/-- `vk::CommandProcessorTask`: one queued task.  Only the payload fields
the modelled handlers read are kept: the tag, the queue serial, the
deferred-destruction garbage list (object ids), the presented swapchain
handle, and whether a caller-supplied one-off fence is present.
`presentResultEnv` carries the modelled environment response: the
`VkResult` that `vkQueuePresentKHR` returns for this present call (the
driver's answer travels with the task in the model). -/
structure CommandProcessorTask where
  mTask : CustomTask
  mSerial : Serial
  mGarbage : List Nat
  mSwapchain : Nat
  presentResultEnv : VkResult
  mHasOneOffFence : Bool
deriving DecidableEq, Repr

/-- `CommandProcessorTask::initTask()`: reset to the invalid task. -/
def CommandProcessorTask.initTask : CommandProcessorTask :=
  { mTask := .Invalid
    mSerial := .fin 0
    mGarbage := []
    mSwapchain := 0
    presentResultEnv := .VK_SUCCESS
    mHasOneOffFence := false }

/-- `CommandProcessorTask::initTask(CustomTask)`: reset, then set the tag
(used for `CheckCompletedCommands` and `Exit`). -/
def CommandProcessorTask.initTaskWith (tag : CustomTask) : CommandProcessorTask :=
  { CommandProcessorTask.initTask with mTask := tag }

/-- `CommandProcessorTask::initProcessCommands`. -/
def CommandProcessorTask.initProcessCommands : CommandProcessorTask :=
  { CommandProcessorTask.initTask with mTask := .ProcessCommands }

/-- `CommandProcessorTask::initPresent`: tag `Present`, deep-copied
present info reduced to the single presented swapchain handle; the
attached `VkResult` is the modelled driver response for this call. -/
def CommandProcessorTask.initPresent (swapchain : Nat) (result : VkResult) :
    CommandProcessorTask :=
  { CommandProcessorTask.initTask with
      mTask := .Present
      mSwapchain := swapchain
      presentResultEnv := result }

/-- `CommandProcessorTask::initFinishToSerial`. -/
def CommandProcessorTask.initFinishToSerial (serial : Serial) : CommandProcessorTask :=
  { CommandProcessorTask.initTask with mTask := .FinishToSerial, mSerial := serial }

/-- `CommandProcessorTask::initFlushAndQueueSubmit` (wait semaphores and
stage masks do not influence the modelled effects and are dropped). -/
def CommandProcessorTask.initFlushAndQueueSubmit (garbage : List Nat) :
    CommandProcessorTask :=
  { CommandProcessorTask.initTask with mTask := .FlushAndQueueSubmit, mGarbage := garbage }

/-- `CommandProcessorTask::initOneOffQueueSubmit`. -/
def CommandProcessorTask.initOneOffQueueSubmit : CommandProcessorTask :=
  { CommandProcessorTask.initTask with mTask := .OneOffQueueSubmit, mHasOneOffFence := true }

/-- Renderer-visible side effects, in the order they occur. -/
inductive Event where
  | assignSerial (s : Nat)
  | gpuSubmit (s : Option Nat)
  | presentCall (sw : Nat) (r : VkResult)
  | completedSerial (s : Nat)
  | destroyBatch (s : Nat)
  | destroyGarbage (s : Nat)
  | fenceWait (s : Nat)
  | recordError (code : VkResult)
  | destroyPrimaryPool
  | destroyCommandPool
  | destroyPrimaryBuffer
deriving DecidableEq, Repr

/-- Producer-side events: serial assignment happens in `queueCommand` on
the calling thread; everything else happens in the task handlers. -/
def Event.isProducerEvent : Event → Bool
  | .assignSerial _ => true
  | _ => false

/-- Worker-side events (the complement of `isProducerEvent`). -/
def Event.isWorkerEvent (e : Event) : Bool := !e.isProducerEvent

/-- Modelled from the spec: `SerialFactory` "issues strictly increasing
submission serials" (the class lives outside `src/`); scenario S1's
`getLastSubmittedSerial() == getCurrentQueueSerial() - 1` pins the
increment to one, matching ANGLE's `SerialFactory::generate`, which
returns `++mSerial`. -/
structure SerialFactory where
  counter : Nat
deriving DecidableEq, Repr

/-- Modelled from the spec: `SerialFactory.next()` returns the next
serial, one larger than the previous one. -/
def SerialFactory.generate (f : SerialFactory) : Nat × SerialFactory :=
  (f.counter + 1, ⟨f.counter + 1⟩)

/-- The facade-owned state: `mQueueSerialFactory`,
`mCommandProcessorLastSubmittedSerial` and
`mCommandProcessorCurrentQueueSerial` (all facade serials are real, hence
stored as naturals). -/
structure FacadeState where
  factory : SerialFactory
  lastSubmitted : Nat
  current : Nat
deriving DecidableEq, Repr

/-- The `CommandProcessor` constructor: `mCommandProcessorLastSubmittedSerial`
then `mCommandProcessorCurrentQueueSerial` are initialized from two
successive `generate()` calls. -/
def FacadeState.init : FacadeState :=
  let f0 : SerialFactory := ⟨0⟩
  let (ls, f1) := f0.generate
  let (cur, f2) := f1.generate
  { factory := f2, lastSubmitted := ls, current := cur }

/-- The serial-assignment half of `CommandProcessor::queueCommand`
(lines 622-635): under the worker mutex, if the task is
`FlushAndQueueSubmit` or `OneOffQueueSubmit`, then under the serial mutex
the task receives the current queue serial, `last_submitted` becomes the
current serial, and the current serial is regenerated; the resource-use
list is released against the assigned serial (the `assignSerial` event).
Other task tags leave the serial state untouched. -/
def queueCommandAssign (f : FacadeState) (task : CommandProcessorTask) :
    FacadeState × CommandProcessorTask × List Event :=
  if task.mTask = .FlushAndQueueSubmit ∨ task.mTask = .OneOffQueueSubmit then
    let queueSerial := f.current
    let task' := { task with mSerial := .fin queueSerial }
    let gen := f.factory.generate
    ({ factory := gen.2, lastSubmitted := f.current, current := gen.1 },
     task', [.assignSerial queueSerial])
  else
    (f, task, [])

/-- `CommandProcessor::getLastSubmittedSerial` (read under the serial
mutex). -/
def getLastSubmittedSerial (f : FacadeState) : Nat := f.lastSubmitted

/-- `CommandProcessor::getCurrentQueueSerial` (read under the serial
mutex). -/
def getCurrentQueueSerial (f : FacadeState) : Nat := f.current

/-- `vk::Error`: one record of the worker error queue. -/
structure VkError where
  mErrorCode : VkResult
  mFile : Option String
  mFunction : Option String
  mLine : Nat
deriving DecidableEq, Repr

/-- `CommandProcessor::getAndClearPendingError` (lines 605-615): returns
`{VK_SUCCESS, nullptr, nullptr, 0}` when the error queue is empty,
otherwise pops and returns the front record. -/
def getAndClearPendingError (errors : List VkError) : VkError × List VkError :=
  let tmpError : VkError := ⟨.VK_SUCCESS, none, none, 0⟩
  match errors with
  | [] => (tmpError, [])
  | e :: rest => (e, rest)

/-- Repeatedly call `getAndClearPendingError` `n` times, collecting the
returned records (models a producer draining the error queue). -/
def drainErrors : Nat → List VkError → List VkError × List VkError
  | 0, errors => ([], errors)
  | n + 1, errors =>
    let r1 := getAndClearPendingError errors
    let r2 := drainErrors n r1.2
    (r1.1 :: r2.1, r2.2)

/-- `vk::CommandBatch`: one in-flight submission (primary command buffer,
command pool, shared fence, serial).  Handles are modelled as ids; the
shared fence is identified by the batch's serial, since the GPU model
signals fences by serial. -/
structure CommandBatch where
  primaryCommands : Nat
  commandPool : Nat
  fence : Nat
  serial : Nat
deriving DecidableEq, Repr, Inhabited

/-- `vk::GarbageAndSerial`: deferred-destruction objects tagged with the
serial after which they may be freed. -/
structure GarbageAndSerial where
  garbage : List Nat
  serial : Nat
deriving DecidableEq, Repr

/-- `kInFlightCommandsLimit` (line 18). -/
def kInFlightCommandsLimit : Nat := 100

/-- The worker-side state: the `TaskProcessor`'s in-flight list, garbage
queue and swapchain status map, the shared error queue, the primary
command buffer and pool currently being recorded, plus the modelled
renderer (`lastCompleted`, written by `onCompletedSerial`) and GPU
(`completedUpTo`, the fence-signal frontier).  `exitAssertObserved`
records the outcome of the `ASSERT(mInFlightCommands.empty() &&
mGarbageQueue.empty())` in `TaskProcessor::destroy` when the `Exit`
handler reaches it. -/
structure WorkerState where
  inFlight : List CommandBatch
  garbageQueue : List GarbageAndSerial
  swapchainStatus : List (Nat × VkResult)
  errors : List VkError
  primaryBuffer : Nat
  commandPool : Nat
  nextHandleId : Nat
  lastCompleted : Nat
  completedUpTo : Nat
  exitAssertObserved : Option Bool
deriving DecidableEq, Repr

/-- Initial worker state: empty lists, the first primary command buffer
and command pool allocated, nothing completed yet. -/
def WorkerState.init : WorkerState :=
  { inFlight := []
    garbageQueue := []
    swapchainStatus := []
    errors := []
    primaryBuffer := 1
    commandPool := 2
    nextHandleId := 3
    lastCompleted := 0
    completedUpTo := 0
    exitAssertObserved := none }

/-- Fence status query in the modelled GPU: a batch fence reports
`VK_SUCCESS` exactly when its serial is within the completion frontier,
else `VK_NOT_READY`. -/
def fenceReady (completedUpTo : Nat) (serial : Nat) : Bool :=
  serial ≤ completedUpTo

/-- The batch loop of `TaskProcessor::checkCompletedCommandsNoLock`
(lines 297-322), parametric in the fence-status oracle `ready`: walk the
in-flight list from the head; stop at the first fence reporting
`VK_NOT_READY`; for every ready batch call
`rendererVk->onCompletedSerial(batch.serial)` (modelled from the spec:
the renderer records the completed serial as `last_completed`), recycle
the fence, destroy the batch's command pool and return the primary
buffer to the primary pool (the `destroyBatch` event), and finally erase
the finished prefix.  Returns the remaining list, the renderer's
`last_completed` and the emitted events. -/
def sweepBatches (ready : Nat → Bool) (lastCompleted : Nat) :
    List CommandBatch → List CommandBatch × Nat × List Event
  | [] => ([], lastCompleted, [])
  | b :: rest =>
    if ready b.serial then
      let (rem, lc, evs) := sweepBatches ready b.serial rest
      (rem, lc, .completedSerial b.serial :: .destroyBatch b.serial :: evs)
    else
      (b :: rest, lastCompleted, [])

/-- The garbage loop of `TaskProcessor::checkCompletedCommandsNoLock`
(lines 324-347): from the head of the garbage queue, destroy every
entry whose serial is at most `last_completed`; stop at the first entry
whose serial is larger; erase the destroyed prefix. -/
def sweepGarbage (lastCompleted : Nat) :
    List GarbageAndSerial → List GarbageAndSerial × List Event
  | [] => ([], [])
  | g :: rest =>
    if g.serial ≤ lastCompleted then
      let (rem, evs) := sweepGarbage lastCompleted rest
      (rem, .destroyGarbage g.serial :: evs)
    else
      (g :: rest, [])

/-- `TaskProcessor::checkCompletedCommandsNoLock` (lines 291-350): the
batch loop followed by the garbage loop (which reads the renderer's
`last_completed` as updated by the batch loop's `onCompletedSerial`
calls). -/
def checkCompletedCommandsNoLock (ready : Nat → Bool) (w : WorkerState) :
    WorkerState × List Event :=
  let rb := sweepBatches ready w.lastCompleted w.inFlight
  let rg := sweepGarbage rb.2.1 w.garbageQueue
  ({ w with inFlight := rb.1, lastCompleted := rb.2.1, garbageQueue := rg.1 },
   rb.2.2 ++ rg.2)

/-- `TaskProcessor::lockAndCheckCompletedCommands`: take the in-flight
mutex and run the sweep against the current fence-signal frontier. -/
def lockAndCheckCompletedCommands (w : WorkerState) : WorkerState × List Event :=
  checkCompletedCommandsNoLock (fenceReady w.completedUpTo) w

/-- The scan inside `TaskProcessor::finishToSerial` (lines 442-449): the
index of the first batch whose serial is at least the requested serial,
if any. -/
def firstBatchGeq (serial : Serial) : List CommandBatch → Option Nat
  | [] => none
  | b :: rest =>
    if Serial.leb serial (.fin b.serial) then some 0
    else (firstBatchGeq serial rest).map (· + 1)

/-- The batch-selection of `TaskProcessor::finishToSerial`
(lines 441-449): `batchIndex` starts at `size - 1` and is replaced by the
index of the first batch whose serial is at least the requested serial,
if the scan finds one. -/
def finishBatchIndex (l : List CommandBatch) (serial : Serial) : Nat :=
  (firstBatchGeq serial l).getD (l.length - 1)

/-- `TaskProcessor::finishToSerial` (lines 425-461): if the in-flight
list is empty, return immediately; otherwise select `finishBatchIndex`,
release the mutex, wait on that batch's fence (the modelled wait blocks
until the GPU frontier covers the batch's serial and returns
`VK_SUCCESS`), then run a locked completion sweep. -/
def finishToSerialW (serial : Serial) (w : WorkerState) : WorkerState × List Event :=
  if w.inFlight.isEmpty then
    (w, [])
  else
    let batchIndex := finishBatchIndex w.inFlight serial
    let waited := (w.inFlight.getD batchIndex default).serial
    let w1 := { w with completedUpTo := max w.completedUpTo waited }
    let r := lockAndCheckCompletedCommands w1
    (r.1, .fenceWait waited :: r.2)

/-- Insert-or-replace into the swapchain status map
(`mSwapchainStatus[swapchain] = result`). -/
def statusInsert (sw : Nat) (r : VkResult) :
    List (Nat × VkResult) → List (Nat × VkResult)
  | [] => [(sw, r)]
  | (k, v) :: rest =>
    if k = sw then (sw, r) :: rest else (k, v) :: statusInsert sw r rest

/-- Lookup in the swapchain status map. -/
def statusFind (sw : Nat) : List (Nat × VkResult) → Option VkResult
  | [] => none
  | (k, v) :: rest => if k = sw then some v else statusFind sw rest

/-- Erase from the swapchain status map
(`mSwapchainStatus.erase(swapchain)`). -/
def statusErase (sw : Nat) : List (Nat × VkResult) → List (Nat × VkResult)
  | [] => []
  | (k, v) :: rest =>
    if k = sw then rest else (k, v) :: statusErase sw rest

/-- `TaskProcessor::present` (lines 463-477): under the swapchain mutex,
call `vkQueuePresentKHR` (whose result is the modelled environment
response `result`), store the result in the status map under the
presented swapchain handle, notify waiters, and return the result. -/
def presentTP (sw : Nat) (result : VkResult) (w : WorkerState) :
    VkResult × WorkerState × List Event :=
  (result,
   { w with swapchainStatus := statusInsert sw result w.swapchainStatus },
   [.presentCall sw result])

/-- `TaskProcessor::getLastAndClearPresentResult` (lines 276-289): wait
until the status map holds an entry for the swapchain, then return and
erase it.  The blocking wait is modelled by returning `none` when no
entry exists (the caller would still be suspended). -/
def getLastAndClearPresentResult (sw : Nat) (w : WorkerState) :
    Option VkResult × WorkerState :=
  match statusFind sw w.swapchainStatus with
  | none => (none, w)
  | some r => (some r, { w with swapchainStatus := statusErase sw w.swapchainStatus })

/-- `TaskProcessor::handleDeviceLost` (lines 394-417): wait on every
in-flight fence (raising the GPU frontier to each batch's serial),
destroy each batch's primary buffer, pool and fence without recycling,
and clear the list.  The garbage queue and the renderer's
`last_completed` are not touched. -/
def handleDeviceLostTP (w : WorkerState) : WorkerState × List Event :=
  let frontier := w.inFlight.foldl (fun acc b => max acc b.serial) w.completedUpTo
  ({ w with inFlight := [], completedUpTo := frontier },
   w.inFlight.map (fun b => .destroyBatch b.serial))

/-- `CommandProcessor::handleError` (lines 568-588), as invoked from the
worker's task processing: on `VK_ERROR_DEVICE_LOST` it first calls
`CommandProcessor::handleDeviceLost` (lines 934-945).  That call, with
`asynchronousCommandProcessing` enabled (line 938), waits on
`mWorkerIdleCondition` for `mTasks.empty() && mWorkerThreadIdle` — but
on the worker thread `mWorkerThreadIdle` is `false` (set at line 708
while the task executes) and only the now-blocked worker could ever set
it back, so the wait never finishes: the call never returns, no state
changes, and the error push at line 587 is never reached.  The returned
`Bool` is `false` exactly in that case; otherwise (synchronous mode
skips the wait) the device-lost cleanup and the error push happen and
the call returns. -/
def handleErrorW (async : Bool) (code : VkResult) (w : WorkerState) :
    WorkerState × List Event × Bool :=
  if code = .VK_ERROR_DEVICE_LOST then
    if async then
      -- mWorkerIdleCondition.wait never returns on the worker thread.
      (w, [], false)
    else
      let r := handleDeviceLostTP w
      ({ r.1 with errors := r.1.errors ++ [⟨code, none, none, 0⟩] },
       r.2 ++ [.recordError code], true)
  else
    ({ w with errors := w.errors ++ [⟨code, none, none, 0⟩] },
     [.recordError code], true)

/-- The state mutation of `TaskProcessor::submitFrame` up to line 510:
copy the shared fence and the queue serial into a fresh batch, append
the non-empty garbage under the queue serial, move the primary buffer
and the command pool into the batch (recreating the worker's pool with a
fresh handle), and append the batch to the in-flight list. -/
def submitFrameAppended (garbage : List Nat) (queueSerial : Nat) (w : WorkerState) :
    WorkerState :=
  let batch : CommandBatch :=
    { primaryCommands := w.primaryBuffer
      commandPool := w.commandPool
      fence := queueSerial
      serial := queueSerial }
  let w1 :=
    if garbage.isEmpty then w
    else { w with garbageQueue := w.garbageQueue ++ [⟨garbage, queueSerial⟩] }
  { w1 with
      commandPool := w1.nextHandleId
      nextHandleId := w1.nextHandleId + 1
      inFlight := w1.inFlight ++ [batch] }

/-- `TaskProcessor::submitFrame` (lines 479-525): perform the GPU
submit, append the garbage and the new batch (`submitFrameAppended`),
run a completion sweep, and if the in-flight size now exceeds
`kInFlightCommandsLimit`, finish inline to the serial of the batch at
index `size - kInFlightCommandsLimit`. -/
def submitFrame (garbage : List Nat) (queueSerial : Nat) (w : WorkerState) :
    WorkerState × List Event :=
  let ev0 : List Event := [.gpuSubmit (some queueSerial)]
  let r3 := lockAndCheckCompletedCommands (submitFrameAppended garbage queueSerial w)
  if r3.1.inFlight.length > kInFlightCommandsLimit then
    let numCommandsToFinish := r3.1.inFlight.length - kInFlightCommandsLimit
    let finishSerial := (r3.1.inFlight.getD numCommandsToFinish default).serial
    let r4 := finishToSerialW (.fin finishSerial) r3.1
    (r4.1, ev0 ++ r3.2 ++ r4.2)
  else
    (r3.1, ev0 ++ r3.2)

/-- `angle::Result`, as returned by `CommandProcessor::processTask`. -/
inductive AngleResult where
  | Continue
  | Stop
deriving DecidableEq, Repr

/-- `CommandProcessor::processTask` (lines 729-840): dispatch one task on
the worker state, with `async` the `asynchronousCommandProcessing`
feature (it decides whether `handleError`'s device-lost path waits for
worker idle).  Error returns (`ANGLE_TRY`/`ANGLE_VK_TRY`) do not occur
in the deterministic GPU model.  `Present` swallows
`VK_ERROR_OUT_OF_DATE_KHR` and `VK_SUBOPTIMAL_KHR` and reports any
other non-success result via `handleError`; when that call never
returns (device loss on the asynchronous worker) the dispatch has no
result: the third component is `none`, and the state and events are
those accumulated up to the blocked call. -/
def processTaskW (async : Bool) (w : WorkerState) (task : CommandProcessorTask) :
    WorkerState × List Event × Option AngleResult :=
  match task.mTask with
  | .Exit =>
    let r1 := finishToSerialW .inf w
    -- TaskProcessor::destroy: destroy the primary pool after asserting
    -- that the in-flight list and garbage queue are empty.
    let assertOk := r1.1.inFlight.isEmpty && r1.1.garbageQueue.isEmpty
    let w2 := { r1.1 with exitAssertObserved := some assertOk }
    (w2, r1.2 ++ [.destroyPrimaryPool, .destroyCommandPool, .destroyPrimaryBuffer],
     some .Continue)
  | .FlushAndQueueSubmit =>
    -- End the primary buffer, build the submit info, fetch the next
    -- shared submit fence, submit the frame, then allocate and begin a
    -- fresh primary command buffer.
    let r1 := submitFrame task.mGarbage task.mSerial.toNat w
    let w2 := { r1.1 with
                  primaryBuffer := r1.1.nextHandleId
                  nextHandleId := r1.1.nextHandleId + 1 }
    (w2, r1.2, some .Continue)
  | .OneOffQueueSubmit =>
    -- Submit the caller-supplied command buffer with the caller fence
    -- (no batch bookkeeping), then run a locked completion sweep.
    let r1 := lockAndCheckCompletedCommands w
    (r1.1, .gpuSubmit none :: r1.2, some .Continue)
  | .FinishToSerial =>
    let r1 := finishToSerialW task.mSerial w
    (r1.1, r1.2, some .Continue)
  | .Present =>
    let rp := presentTP task.mSwapchain task.presentResultEnv w
    let result := rp.1
    if result = .VK_ERROR_OUT_OF_DATE_KHR ∨ result = .VK_SUBOPTIMAL_KHR then
      -- We get to ignore these as they are not fatal.
      (rp.2.1, rp.2.2, some .Continue)
    else if result ≠ .VK_SUCCESS then
      -- Save the error so that we can handle it; on the asynchronous
      -- worker a device-lost result deadlocks inside handleError and
      -- the handler never reaches its return.
      let r2 := handleErrorW async result rp.2.1
      (r2.1, rp.2.2 ++ r2.2.1, if r2.2.2 then some .Continue else none)
    else
      (rp.2.1, rp.2.2, some .Continue)
  | .ProcessCommands =>
    -- Flush the recorded secondary buffer into the current primary and
    -- return it to its pool: no renderer-visible effect in the model.
    (w, [], some .Continue)
  | .CheckCompletedCommands =>
    let r1 := lockAndCheckCompletedCommands w
    (r1.1, r1.2, some .Continue)
  | .Invalid =>
    (w, [], some .Continue)

/-- One producer-script operation: the facade entry points that build and
queue tasks, plus two environment steps (`gpuSignal`, the GPU signaling
fences up to a serial, and `deviceLost`, the producer-invoked
`CommandProcessor::handleDeviceLost`). -/
inductive Op where
  | flushAndSubmit (garbage : List Nat)
  | oneOffSubmit
  | present (sw : Nat) (result : VkResult)
  | finishToSerial (serial : Serial)
  | checkCompleted
  | exit
  | gpuSignal (upTo : Nat)
  | deviceLost
deriving DecidableEq, Repr

/-- Whether the operation goes through `queueCommand` (builds a task);
`gpuSignal` and `deviceLost` act on the processor directly. -/
def Op.isQueueOp : Op → Bool
  | .gpuSignal _ => false
  | .deviceLost => false
  | _ => true

/-- The task built by the facade for a queue operation (the `init*` task
constructors). -/
def Op.toTask : Op → CommandProcessorTask
  | .flushAndSubmit garbage => .initFlushAndQueueSubmit garbage
  | .oneOffSubmit => .initOneOffQueueSubmit
  | .present sw r => .initPresent sw r
  | .finishToSerial s => .initFinishToSerial s
  | .checkCompleted => .initTaskWith .CheckCompletedCommands
  | .exit => .initTaskWith .Exit
  | .gpuSignal _ => .initTask
  | .deviceLost => .initTask

/-- The whole processor state in the synchronous machine: facade state,
worker state and the accumulated renderer-visible trace. -/
structure SysState where
  facade : FacadeState
  worker : WorkerState
  trace : List Event
deriving DecidableEq, Repr

/-- Initial processor state. -/
def SysState.init : SysState :=
  { facade := FacadeState.init, worker := WorkerState.init, trace := [] }

/-- One producer operation in synchronous mode
(`asynchronousCommandProcessing` disabled): queue operations run
`queueCommand`, which assigns the serial and then dispatches the task
inline; `gpuSignal` advances the GPU fence frontier; `deviceLost` runs
the device-lost cleanup on the caller thread. -/
def applyOpSync (s : SysState) : Op → SysState
  | .gpuSignal upTo =>
    { s with worker := { s.worker with
        completedUpTo := max s.worker.completedUpTo upTo } }
  | .deviceLost =>
    let r := handleDeviceLostTP s.worker
    { s with worker := r.1, trace := s.trace ++ r.2 }
  | op =>
    let rq := queueCommandAssign s.facade op.toTask
    let rw := processTaskW false s.worker rq.2.1
    { facade := rq.1, worker := rw.1, trace := s.trace ++ rq.2.2 ++ rw.2.1 }

/-- Run a producer script in synchronous mode from the initial state. -/
def runOps (ops : List Op) : SysState :=
  ops.foldl applyOpSync SysState.init

/-- Fold the serial-assignment half of `queueCommand` over a producer
script: the facade state after all enqueues, the tasks (with serials
assigned) in queue order, and the producer-side events. -/
def foldAssign (f : FacadeState) :
    List Op → FacadeState × List CommandProcessorTask × List Event
  | [] => (f, [], [])
  | op :: ops =>
    let rq := queueCommandAssign f op.toTask
    let rr := foldAssign rq.1 ops
    (rr.1, rq.2.1 :: rr.2.1, rq.2.2 ++ rr.2.2)

/-- Fold the worker dispatch over a task sequence, stopping if a
dispatch never returns: the final `Bool` is `true` when every task
completed; on a deadlock the state and events so far are kept and the
remaining tasks are never processed. -/
def foldProcess (async : Bool) (w : WorkerState) :
    List CommandProcessorTask → WorkerState × List Event × Bool
  | [] => (w, [], true)
  | t :: ts =>
    let rw := processTaskW async w t
    match rw.2.2 with
    | some _ =>
      let rr := foldProcess async rw.1 ts
      (rr.1, rw.2.1 ++ rr.2.1, rr.2.2)
    | none => (rw.1, rw.2.1, false)

/-- Run a producer script of queue operations in synchronous mode:
each `queueCommand` assigns the serial and immediately dispatches
inline.  (Same as `runOps` but from arbitrary start states and restricted
to queue operations, for comparison against the asynchronous worker.) -/
def syncRunQ (f : FacadeState) (w : WorkerState) :
    List Op → FacadeState × WorkerState × List Event
  | [] => (f, w, [])
  | op :: ops =>
    let rq := queueCommandAssign f op.toTask
    let rw := processTaskW false w rq.2.1
    let rr := syncRunQ rq.1 rw.1 ops
    (rr.1, rr.2.1, rq.2.2 ++ rw.2.1 ++ rr.2.2)

/-- Asynchronous mode: the producer enqueues (`true` schedule steps,
running the serial-assignment half of `queueCommand` and pushing the
task onto the FIFO) while the worker dequeues and dispatches (`false`
steps), in any interleaving chosen by `sched`.  Returns `none` when the
run does not complete: an invalid schedule (dequeue on an empty queue,
enqueue with no operations left, a non-queue operation, or a schedule
that does not drain both the script and the queue), or a dispatch that
never returns (the worker deadlocks, so the queue can never drain). -/
def asyncRun : List Bool → List Op → List CommandProcessorTask →
    FacadeState → WorkerState → List Event →
    Option (FacadeState × WorkerState × List Event)
  | [], [], [], f, w, tr => some (f, w, tr)
  | [], _ :: _, _, _, _, _ => none
  | [], [], _ :: _, _, _, _ => none
  | true :: sched, op :: ops, q, f, w, tr =>
    if op.isQueueOp then
      let rq := queueCommandAssign f op.toTask
      asyncRun sched ops (q ++ [rq.2.1]) rq.1 w (tr ++ rq.2.2)
    else
      none
  | true :: _, [], _, _, _, _ => none
  | false :: sched, ops, t :: q, f, w, tr =>
    let rw := processTaskW true w t
    match rw.2.2 with
    | some _ => asyncRun sched ops q f rw.1 (tr ++ rw.2.1)
    | none => none
  | false :: _, _, [], _, _, _ => none

/-! ### Helper lemmas about the completion sweep -/

/-- The batch loop leaves exactly the maximal ready prefix removed. -/
lemma sweepBatches_fst (ready : Nat → Bool) (lc : Nat) (l : List CommandBatch) :
    (sweepBatches ready lc l).1 = l.dropWhile (fun b => ready b.serial) := by
  induction l generalizing lc with
  | nil => simp [sweepBatches]
  | cons b rest ih =>
    simp only [sweepBatches, List.dropWhile_cons]
    by_cases h : ready b.serial
    · simp [h, ih]
    · simp [h]

/-- The renderer's `last_completed` after the batch loop: the serial of
the last removed batch, or the old value when nothing was removed. -/
lemma sweepBatches_lastCompleted (ready : Nat → Bool) (lc : Nat) (l : List CommandBatch) :
    (sweepBatches ready lc l).2.1 =
      (l.takeWhile (fun b => ready b.serial)).foldl (fun _ b => b.serial) lc := by
  induction l generalizing lc with
  | nil => simp [sweepBatches]
  | cons b rest ih =>
    simp only [sweepBatches, List.takeWhile_cons]
    by_cases h : ready b.serial
    · simp [h, ih]
    · simp [h]

/-- The events of the batch loop: per removed batch in list order, the
`onCompletedSerial` notification followed by the destruction/recycling
of its fence, pool and primary buffer. -/
lemma sweepBatches_events (ready : Nat → Bool) (lc : Nat) (l : List CommandBatch) :
    (sweepBatches ready lc l).2.2 =
      (l.takeWhile (fun b => ready b.serial)).flatMap
        (fun b => [.completedSerial b.serial, .destroyBatch b.serial]) := by
  induction l generalizing lc with
  | nil => simp [sweepBatches]
  | cons b rest ih =>
    simp only [sweepBatches, List.takeWhile_cons]
    by_cases h : ready b.serial
    · simp [h, ih]
    · simp [h]

/-- The garbage loop erases exactly the maximal prefix with serial at
most `last_completed`. -/
lemma sweepGarbage_fst (lc : Nat) (l : List GarbageAndSerial) :
    (sweepGarbage lc l).1 = l.dropWhile (fun g => g.serial ≤ lc) := by
  induction l with
  | nil => simp [sweepGarbage]
  | cons g rest ih =>
    simp only [sweepGarbage, List.dropWhile_cons]
    by_cases h : g.serial ≤ lc
    · simp [h, ih]
    · simp [h]

/-- The events of the garbage loop: one destruction per erased entry, in
list order. -/
lemma sweepGarbage_events (lc : Nat) (l : List GarbageAndSerial) :
    (sweepGarbage lc l).2 =
      (l.takeWhile (fun g => g.serial ≤ lc)).map (fun g => .destroyGarbage g.serial) := by
  induction l with
  | nil => simp [sweepGarbage]
  | cons g rest ih =>
    simp only [sweepGarbage, List.takeWhile_cons]
    by_cases h : g.serial ≤ lc
    · simp [h, ih]
    · simp [h]

/-- `checkCompletedCommandsNoLock` on the in-flight list: exactly the
maximal ready prefix is removed. -/
lemma checkCompleted_inFlight (ready : Nat → Bool) (w : WorkerState) :
    (checkCompletedCommandsNoLock ready w).1.inFlight =
      w.inFlight.dropWhile (fun b => ready b.serial) := by
  simp [checkCompletedCommandsNoLock, sweepBatches_fst]

/-- `checkCompletedCommandsNoLock` only mutates the in-flight list, the
garbage queue and the renderer's `last_completed`. -/
lemma checkCompleted_frame (ready : Nat → Bool) (w : WorkerState) :
    ((checkCompletedCommandsNoLock ready w).1.swapchainStatus = w.swapchainStatus ∧
     (checkCompletedCommandsNoLock ready w).1.errors = w.errors) ∧
    (checkCompletedCommandsNoLock ready w).1.completedUpTo = w.completedUpTo ∧
    (checkCompletedCommandsNoLock ready w).1.primaryBuffer = w.primaryBuffer ∧
    (checkCompletedCommandsNoLock ready w).1.commandPool = w.commandPool ∧
    (checkCompletedCommandsNoLock ready w).1.nextHandleId = w.nextHandleId ∧
    (checkCompletedCommandsNoLock ready w).1.exitAssertObserved = w.exitAssertObserved := by
  simp [checkCompletedCommandsNoLock]

/-- If every element of a prefix satisfies `p`, `dropWhile` skips past
the whole prefix. -/
lemma dropWhile_append_all {α : Type} (p : α → Bool) (l₁ l₂ : List α)
    (h : ∀ x ∈ l₁, p x = true) :
    List.dropWhile p (l₁ ++ l₂) = List.dropWhile p l₂ := by
  induction l₁ with
  | nil => simp
  | cons a rest ih =>
    have ha : p a = true := h a (by simp)
    simp only [List.cons_append, List.dropWhile_cons, ha, if_true]
    exact ih (fun x hx => h x (by simp [hx]))

/-! ### Helper lemmas about the `finishToSerial` batch selection -/

/-- The scan returns `none` exactly when no batch reaches the requested
serial. -/
lemma firstBatchGeq_eq_none_iff (s : Serial) (l : List CommandBatch) :
    firstBatchGeq s l = none ↔ ∀ b ∈ l, Serial.leb s (.fin b.serial) = false := by
  induction l with
  | nil => simp [firstBatchGeq]
  | cons b rest ih =>
    cases hb : Serial.leb s (.fin b.serial) with
    | true => simp [firstBatchGeq, hb]
    | false =>
      simp only [firstBatchGeq, hb, Bool.false_eq_true, if_false, Option.map_eq_none',
        List.mem_cons]
      constructor
      · intro hn x hx
        rcases hx with rfl | hx
        · exact hb
        · exact (ih.mp hn) x hx
      · intro hall
        exact ih.mpr (fun x hx => hall x (Or.inr hx))

/-- When the scan succeeds, the selected batch reaches the requested
serial and every earlier batch does not (it is the first such batch). -/
lemma firstBatchGeq_eq_some (s : Serial) (l : List CommandBatch) (i : Nat)
    (h : firstBatchGeq s l = some i) :
    ∃ hi : i < l.length,
      Serial.leb s (.fin (l.get ⟨i, hi⟩).serial) = true ∧
      ∀ j (hj : j < l.length), j < i → Serial.leb s (.fin (l.get ⟨j, hj⟩).serial) = false := by
  induction l generalizing i with
  | nil => simp [firstBatchGeq] at h
  | cons b rest ih =>
    cases hb : Serial.leb s (.fin b.serial) with
    | true =>
      simp only [firstBatchGeq, hb, if_true, Option.some.injEq] at h
      subst h
      exact ⟨by simp, by simpa using hb, fun j hj hji => absurd hji (by omega)⟩
    | false =>
      simp only [firstBatchGeq, hb, Bool.false_eq_true, if_false, Option.map_eq_some'] at h
      obtain ⟨i0, hi0, rfl⟩ := h
      obtain ⟨hlt, hsel, hbefore⟩ := ih i0 hi0
      refine ⟨by simpa using Nat.succ_lt_succ hlt, by simpa using hsel, ?_⟩
      intro j hj hji
      match j with
      | 0 => exact hb
      | j' + 1 =>
        have hj' : j' < rest.length := by simpa using hj
        have := hbefore j' hj' (by omega)
        simpa using this

/-- If every batch before index `n` misses the requested serial and the
batch at `n` reaches it, the scan selects exactly index `n`. -/
lemma firstBatchGeq_pinpoint (s : Serial) (l : List CommandBatch) (n : Nat)
    (hn : n < l.length)
    (hbefore : ∀ j (hj : j < l.length), j < n → Serial.leb s (.fin (l.get ⟨j, hj⟩).serial) = false)
    (hat : Serial.leb s (.fin (l.get ⟨n, hn⟩).serial) = true) :
    firstBatchGeq s l = some n := by
  induction l generalizing n with
  | nil => simp at hn
  | cons b rest ih =>
    match n with
    | 0 =>
      have : Serial.leb s (.fin b.serial) = true := by simpa using hat
      simp [firstBatchGeq, this]
    | n' + 1 =>
      have hb : Serial.leb s (.fin b.serial) = false := by
        simpa using hbefore 0 (by simp) (by omega)
      have hn' : n' < rest.length := by simpa using hn
      have hrest : firstBatchGeq s rest = some n' := by
        apply ih n' hn'
        · intro j hj hjn
          have := hbefore (j + 1) (by simpa using Nat.succ_lt_succ hj) (by omega)
          simpa using this
        · simpa using hat
      simp [firstBatchGeq, hb, hrest]

/-! ### Sublist lemmas: every handler only removes batches (after the
single append in `submitFrame`) -/

/-- The sweep only removes in-flight batches. -/
lemma checkCompleted_inFlight_sublist (ready : Nat → Bool) (w : WorkerState) :
    ((checkCompletedCommandsNoLock ready w).1.inFlight).Sublist w.inFlight := by
  rw [checkCompleted_inFlight]
  exact List.dropWhile_sublist _

/-- `lockAndCheckCompletedCommands` only removes in-flight batches. -/
lemma lockAndCheck_inFlight_sublist (w : WorkerState) :
    ((lockAndCheckCompletedCommands w).1.inFlight).Sublist w.inFlight :=
  checkCompleted_inFlight_sublist _ w

/-- `finishToSerial` only removes in-flight batches. -/
lemma finishToSerialW_inFlight_sublist (s : Serial) (w : WorkerState) :
    ((finishToSerialW s w).1.inFlight).Sublist w.inFlight := by
  unfold finishToSerialW
  by_cases h : w.inFlight.isEmpty
  · simp [h]
  · simp only [h, Bool.false_eq_true, if_false]
    exact lockAndCheck_inFlight_sublist _

/-- The serials after the append step of `submitFrame`: the old serials
followed by the queue serial. -/
lemma submitFrameAppended_serials (g : List Nat) (qs : Nat) (w : WorkerState) :
    (submitFrameAppended g qs w).inFlight.map CommandBatch.serial =
      (w.inFlight.map CommandBatch.serial) ++ [qs] := by
  unfold submitFrameAppended
  by_cases hg : g.isEmpty <;> simp [hg]

/-- `submitFrame` appends exactly one batch, carrying the queue serial,
and afterwards only removes batches. -/
lemma submitFrame_serials_sublist (g : List Nat) (qs : Nat) (w : WorkerState) :
    (((submitFrame g qs w).1.inFlight).map CommandBatch.serial).Sublist
      ((w.inFlight.map CommandBatch.serial) ++ [qs]) := by
  have hbase : ∀ w' : WorkerState,
      w'.inFlight.Sublist (submitFrameAppended g qs w).inFlight →
      (w'.inFlight.map CommandBatch.serial).Sublist
        ((w.inFlight.map CommandBatch.serial) ++ [qs]) := by
    intro w' hsub
    have h1 := hsub.map CommandBatch.serial
    rwa [submitFrameAppended_serials] at h1
  unfold submitFrame
  dsimp only
  rw [apply_ite Prod.fst]
  dsimp only
  by_cases hover :
      (lockAndCheckCompletedCommands (submitFrameAppended g qs w)).1.inFlight.length >
        kInFlightCommandsLimit
  · rw [if_pos hover]
    exact hbase _ ((finishToSerialW_inFlight_sublist _ _).trans
      (lockAndCheck_inFlight_sublist _))
  · rw [if_neg hover]
    exact hbase _ (lockAndCheck_inFlight_sublist _)

/-- Dispatching any task leaves the in-flight serials a sublist of the
old serials extended by the task's own serial. -/
lemma processTaskW_serials_sublist (async : Bool) (w : WorkerState)
    (t : CommandProcessorTask) :
    (((processTaskW async w t).1.inFlight).map CommandBatch.serial).Sublist
      ((w.inFlight.map CommandBatch.serial) ++ [t.mSerial.toNat]) := by
  have hweak : ∀ w' : WorkerState, w'.inFlight.Sublist w.inFlight →
      ((w'.inFlight.map CommandBatch.serial)).Sublist
        ((w.inFlight.map CommandBatch.serial) ++ [t.mSerial.toNat]) := by
    intro w' hsub
    exact (hsub.map CommandBatch.serial).trans (List.sublist_append_left _ _)
  cases htag : t.mTask
  case Invalid => simp only [processTaskW, htag]; exact hweak w (List.Sublist.refl _)
  case ProcessCommands => simp only [processTaskW, htag]; exact hweak w (List.Sublist.refl _)
  case FlushAndQueueSubmit =>
    simp only [processTaskW, htag]
    exact submitFrame_serials_sublist _ _ _
  case OneOffQueueSubmit =>
    simp only [processTaskW, htag]
    exact hweak _ (lockAndCheck_inFlight_sublist _)
  case FinishToSerial =>
    simp only [processTaskW, htag]
    exact hweak _ (finishToSerialW_inFlight_sublist _ _)
  case CheckCompletedCommands =>
    simp only [processTaskW, htag]
    exact hweak _ (lockAndCheck_inFlight_sublist _)
  case Exit =>
    simp only [processTaskW, htag]
    exact hweak _ (finishToSerialW_inFlight_sublist _ _)
  case Present =>
    simp only [processTaskW, htag]
    by_cases h1 : (presentTP t.mSwapchain t.presentResultEnv w).1 = .VK_ERROR_OUT_OF_DATE_KHR ∨
        (presentTP t.mSwapchain t.presentResultEnv w).1 = .VK_SUBOPTIMAL_KHR
    · simp only [h1, if_true]
      exact hweak _ (by simp [presentTP])
    · simp only [h1, if_false]
      by_cases h2 : (presentTP t.mSwapchain t.presentResultEnv w).1 ≠ .VK_SUCCESS
      · rw [if_pos h2]
        apply hweak
        unfold handleErrorW
        by_cases h3 : t.presentResultEnv = .VK_ERROR_DEVICE_LOST
        · cases async <;> simp [h3, handleDeviceLostTP, presentTP]
        · simp [h3, presentTP]
      · rw [if_neg h2]
        exact hweak _ (by simp [presentTP])

/-! ### The reachable-state invariant -/

/-- Invariant of every reachable processor state: the current queue
serial is the one the factory issued last, the last-submitted serial is
strictly below it, the in-flight serials are strictly increasing from
head to tail, and every in-flight serial is below the current queue
serial. -/
def ReachInv (s : SysState) : Prop :=
  s.facade.current = s.facade.factory.counter ∧
  s.facade.lastSubmitted < s.facade.current ∧
  List.Pairwise (· < ·) (s.worker.inFlight.map CommandBatch.serial) ∧
  ∀ b ∈ s.worker.inFlight, b.serial < s.facade.current

/-- The invariant holds initially. -/
lemma ReachInv_init : ReachInv SysState.init := by
  refine ⟨rfl, by decide, by simp [SysState.init, WorkerState.init], ?_⟩
  intro b hb
  simp [SysState.init, WorkerState.init] at hb

/-- Dispatching any task other than `FlushAndQueueSubmit` never adds an
in-flight batch. -/
lemma processTaskW_inFlight_sublist_of_ne (async : Bool) (w : WorkerState)
    (t : CommandProcessorTask)
    (hne : t.mTask ≠ .FlushAndQueueSubmit) :
    ((processTaskW async w t).1.inFlight).Sublist w.inFlight := by
  cases htag : t.mTask
  case FlushAndQueueSubmit => exact absurd htag hne
  case Invalid => simp only [processTaskW, htag]; exact List.Sublist.refl _
  case ProcessCommands => simp only [processTaskW, htag]; exact List.Sublist.refl _
  case OneOffQueueSubmit =>
    simp only [processTaskW, htag]
    exact lockAndCheck_inFlight_sublist _
  case FinishToSerial =>
    simp only [processTaskW, htag]
    exact finishToSerialW_inFlight_sublist _ _
  case CheckCompletedCommands =>
    simp only [processTaskW, htag]
    exact lockAndCheck_inFlight_sublist _
  case Exit =>
    simp only [processTaskW, htag]
    exact finishToSerialW_inFlight_sublist _ _
  case Present =>
    simp only [processTaskW, htag]
    by_cases h1 : (presentTP t.mSwapchain t.presentResultEnv w).1 = .VK_ERROR_OUT_OF_DATE_KHR ∨
        (presentTP t.mSwapchain t.presentResultEnv w).1 = .VK_SUBOPTIMAL_KHR
    · simp only [h1, if_true]
      simp [presentTP]
    · simp only [h1, if_false]
      by_cases h2 : (presentTP t.mSwapchain t.presentResultEnv w).1 ≠ .VK_SUCCESS
      · rw [if_pos h2]
        unfold handleErrorW
        by_cases h3 : t.presentResultEnv = .VK_ERROR_DEVICE_LOST
        · cases async <;> simp [h3, handleDeviceLostTP, presentTP]
        · simp [h3, presentTP]
      · rw [if_neg h2]
        simp [presentTP]

/-- Applying one enqueue-and-dispatch step to a state satisfying the
invariant yields a state satisfying the invariant (any trace). -/
lemma ReachInv_queue (f : FacadeState) (w : WorkerState) (t : CommandProcessorTask)
    (tr tr' : List Event) (h : ReachInv ⟨f, w, tr⟩) :
    ReachInv ⟨(queueCommandAssign f t).1,
              (processTaskW false w (queueCommandAssign f t).2.1).1, tr'⟩ := by
  obtain ⟨h1, h2, h3, h4⟩ := h
  unfold ReachInv at *
  dsimp only at h1 h2 h3 h4 ⊢
  by_cases hsub : t.mTask = .FlushAndQueueSubmit ∨ t.mTask = .OneOffQueueSubmit
  · -- submission: serial state advances, the task gets serial `current`
    have hq : queueCommandAssign f t =
        ({ factory := ⟨f.factory.counter + 1⟩,
           lastSubmitted := f.current,
           current := f.factory.counter + 1 },
         { t with mSerial := .fin f.current },
         [.assignSerial f.current]) := by
      simp [queueCommandAssign, hsub, SerialFactory.generate]
    have hser : ({ t with mSerial := .fin f.current } :
        CommandProcessorTask).mSerial.toNat = f.current := rfl
    have hsubl := processTaskW_serials_sublist false w { t with mSerial := .fin f.current }
    rw [hser] at hsubl
    have hpw : List.Pairwise (· < ·)
        ((w.inFlight.map CommandBatch.serial) ++ [f.current]) := by
      rw [List.pairwise_append]
      refine ⟨h3, by simp, ?_⟩
      intro a ha b hb
      simp only [List.mem_singleton] at hb
      subst hb
      obtain ⟨x, hx, rfl⟩ := List.mem_map.mp ha
      exact h4 x hx
    refine ⟨by simp [hq], by simp only [hq]; omega, ?_, ?_⟩
    · simp only [hq]
      exact hpw.sublist hsubl
    · simp only [hq]
      intro b hb
      have hmem : b.serial ∈ (w.inFlight.map CommandBatch.serial) ++ [f.current] :=
        hsubl.subset (List.mem_map.mpr ⟨b, hb, rfl⟩)
      simp only [List.mem_append, List.mem_map, List.mem_singleton] at hmem
      rcases hmem with ⟨x, hx, hxb⟩ | heq2
      · have := h4 x hx
        omega
      · have hcur : f.current = f.factory.counter := h1
        omega
  · -- non-submission: the serial state is untouched, no batch is added
    have hq : queueCommandAssign f t = (f, t, []) := by
      simp [queueCommandAssign, hsub]
    have hne : t.mTask ≠ .FlushAndQueueSubmit := by
      intro hc
      exact hsub (Or.inl hc)
    have hsubl := processTaskW_inFlight_sublist_of_ne false w t hne
    refine ⟨by simp [hq, h1], by simp [hq, h2], ?_, ?_⟩
    · simp only [hq]
      exact h3.sublist (hsubl.map CommandBatch.serial)
    · simp only [hq]
      intro b hb
      exact h4 b (hsubl.subset hb)

/-- One synchronous step preserves the invariant. -/
lemma ReachInv_step (s : SysState) (op : Op) (h : ReachInv s) :
    ReachInv (applyOpSync s op) := by
  obtain ⟨h1, h2, h3, h4⟩ := h
  cases op with
  | gpuSignal n => exact ⟨h1, h2, h3, h4⟩
  | deviceLost =>
    refine ⟨h1, h2, ?_, ?_⟩
    · simp [applyOpSync, handleDeviceLostTP]
    · intro b hb
      simp [applyOpSync, handleDeviceLostTP] at hb
  | flushAndSubmit g => exact ReachInv_queue _ _ _ s.trace _ ⟨h1, h2, h3, h4⟩
  | oneOffSubmit => exact ReachInv_queue _ _ _ s.trace _ ⟨h1, h2, h3, h4⟩
  | present sw r => exact ReachInv_queue _ _ _ s.trace _ ⟨h1, h2, h3, h4⟩
  | finishToSerial sr => exact ReachInv_queue _ _ _ s.trace _ ⟨h1, h2, h3, h4⟩
  | checkCompleted => exact ReachInv_queue _ _ _ s.trace _ ⟨h1, h2, h3, h4⟩
  | exit => exact ReachInv_queue _ _ _ s.trace _ ⟨h1, h2, h3, h4⟩

/-- The invariant holds in every reachable state. -/
lemma ReachInv_fold (ops : List Op) :
    ∀ s : SysState, ReachInv s → ReachInv (ops.foldl applyOpSync s) := by
  induction ops with
  | nil => exact fun s h => h
  | cons op ops ih =>
    intro s h
    exact ih _ (ReachInv_step s op h)

/-- The invariant holds after running any producer script. -/
lemma ReachInv_runOps (ops : List Op) : ReachInv (runOps ops) :=
  ReachInv_fold ops SysState.init ReachInv_init

/-- One synchronous step never decreases `last_submitted`. -/
lemma lastSubmitted_step (s : SysState) (op : Op) (h : ReachInv s) :
    s.facade.lastSubmitted ≤ (applyOpSync s op).facade.lastSubmitted := by
  obtain ⟨h1, h2, h3, h4⟩ := h
  have hqueue : ∀ t : CommandProcessorTask,
      s.facade.lastSubmitted ≤ (queueCommandAssign s.facade t).1.lastSubmitted := by
    intro t
    by_cases hsub : t.mTask = .FlushAndQueueSubmit ∨ t.mTask = .OneOffQueueSubmit
    · simp only [queueCommandAssign, hsub, if_true]
      omega
    · simp [queueCommandAssign, hsub]
  cases op with
  | gpuSignal n => exact le_refl _
  | deviceLost => exact le_refl _
  | flushAndSubmit g => exact hqueue _
  | oneOffSubmit => exact hqueue _
  | present sw r => exact hqueue _
  | finishToSerial sr => exact hqueue _
  | checkCompleted => exact hqueue _
  | exit => exact hqueue _

/-- `last_submitted` is non-decreasing along any continuation of a run. -/
lemma lastSubmitted_mono_fold (ops : List Op) :
    ∀ s : SysState, ReachInv s →
      s.facade.lastSubmitted ≤ (ops.foldl applyOpSync s).facade.lastSubmitted := by
  induction ops with
  | nil => exact fun s _ => le_refl _
  | cons op ops ih =>
    intro s h
    exact le_trans (lastSubmitted_step s op h) (ih _ (ReachInv_step s op h))

/-! ### Claim theorems -/

/-- C1: a `queueCommand` call with a `FlushAndQueueSubmit` or
`OneOffQueueSubmit` task sets the task's serial to the pre-call current
queue serial, sets `last_submitted` to that same value, and regenerates
the current queue serial one larger, so that afterwards
`getLastSubmittedSerial() == getCurrentQueueSerial() - 1`; any other
task tag leaves both serial variables (and the task) unchanged. -/
theorem C1_queueCommand_serial_update (f : FacadeState) (task : CommandProcessorTask)
    (hfac : f.current = f.factory.counter) :
    ((task.mTask = .FlushAndQueueSubmit ∨ task.mTask = .OneOffQueueSubmit) →
      (queueCommandAssign f task).2.1.mSerial = .fin f.current ∧
      (queueCommandAssign f task).1.lastSubmitted = f.current ∧
      (queueCommandAssign f task).1.current = f.current + 1 ∧
      getLastSubmittedSerial (queueCommandAssign f task).1 =
        getCurrentQueueSerial (queueCommandAssign f task).1 - 1) ∧
    (¬(task.mTask = .FlushAndQueueSubmit ∨ task.mTask = .OneOffQueueSubmit) →
      (queueCommandAssign f task).1 = f ∧
      (queueCommandAssign f task).2.1 = task) := by
  constructor
  · intro hsub
    simp only [queueCommandAssign, hsub, if_true, SerialFactory.generate,
      getLastSubmittedSerial, getCurrentQueueSerial]
    refine ⟨trivial, trivial, by omega, by omega⟩
  · intro hsub
    simp [queueCommandAssign, hsub]

/-- Witness for C1: the first flush-and-submit after construction gets
serial 2, `last_submitted` becomes 2, and the current serial becomes
3 = 2 + 1. -/
theorem C1_queueCommand_serial_update_witness :
    (queueCommandAssign FacadeState.init
        (.initFlushAndQueueSubmit [])).2.1.mSerial = .fin 2 ∧
    (queueCommandAssign FacadeState.init
        (.initFlushAndQueueSubmit [])).1.lastSubmitted = 2 ∧
    (queueCommandAssign FacadeState.init
        (.initFlushAndQueueSubmit [])).1.current = 2 + 1 ∧
    getLastSubmittedSerial (queueCommandAssign FacadeState.init
        (.initFlushAndQueueSubmit [])).1 =
      getCurrentQueueSerial (queueCommandAssign FacadeState.init
        (.initFlushAndQueueSubmit [])).1 - 1 :=
  (C1_queueCommand_serial_update FacadeState.init
    (.initFlushAndQueueSubmit []) (by decide)).1 (by decide)

/-- C2: in every reachable state the in-flight serials strictly increase
from head to tail, and across any continuation of a producer script the
values returned by `getLastSubmittedSerial` are non-decreasing. -/
theorem C2_serial_monotonicity :
    (∀ ops : List Op,
        List.Pairwise (· < ·)
          ((runOps ops).worker.inFlight.map CommandBatch.serial)) ∧
    (∀ ops more : List Op,
        getLastSubmittedSerial (runOps ops).facade ≤
          getLastSubmittedSerial (runOps (ops ++ more)).facade) := by
  constructor
  · intro ops
    exact (ReachInv_runOps ops).2.2.1
  · intro ops more
    have hfold : runOps (ops ++ more) = more.foldl applyOpSync (runOps ops) := by
      simp [runOps, List.foldl_append]
    rw [hfold]
    exact lastSubmitted_mono_fold more (runOps ops) (ReachInv_runOps ops)

/-! ### The throttle bound -/

/-- Strictly increasing serials, stated per index pair. -/
lemma sorted_serial_lt (l : List CommandBatch)
    (hpw : List.Pairwise (· < ·) (l.map CommandBatch.serial))
    (i j : Nat) (hi : i < l.length) (hj : j < l.length) (hij : i < j) :
    (l.get ⟨i, hi⟩).serial < (l.get ⟨j, hj⟩).serial := by
  have h := List.pairwise_iff_getElem.mp hpw i j
    (by simpa using hi) (by simpa using hj) hij
  simpa [List.getElem_map] using h

/-- Requesting the serial of the batch at index `n` of a sorted in-flight
list selects exactly index `n`. -/
lemma finishBatchIndex_self (l : List CommandBatch) (n : Nat) (hn : n < l.length)
    (hpw : List.Pairwise (· < ·) (l.map CommandBatch.serial)) :
    finishBatchIndex l (.fin ((l.getD n default).serial)) = n := by
  have hgd : l.getD n default = l.get ⟨n, hn⟩ := List.getD_eq_getElem l default hn
  have hscan : firstBatchGeq (.fin ((l.getD n default).serial)) l = some n := by
    apply firstBatchGeq_pinpoint _ _ _ hn
    · intro j hj hjn
      have hlt := sorted_serial_lt l hpw j n hj hn hjn
      simp only [hgd, Serial.leb, decide_eq_false_iff_not, not_le]
      exact hlt
    · rw [hgd]
      simp [Serial.leb]
  unfold finishBatchIndex
  rw [hscan]
  rfl

/-- Waiting on the fence of the batch at index `n` and sweeping leaves at
most the batches after index `n` in flight (given sorted serials: all
earlier fences signal no later than the waited one in the frontier
model). -/
lemma finishToSerialW_throttle (w : WorkerState) (n : Nat)
    (hn : n < w.inFlight.length)
    (hpw : List.Pairwise (· < ·) (w.inFlight.map CommandBatch.serial)) :
    (finishToSerialW (.fin ((w.inFlight.getD n default).serial)) w).1.inFlight.length ≤
      w.inFlight.length - (n + 1) := by
  have hgd : w.inFlight.getD n default = w.inFlight.get ⟨n, hn⟩ :=
    List.getD_eq_getElem w.inFlight default hn
  have hne : w.inFlight.isEmpty = false :=
    List.isEmpty_eq_false.mpr (List.ne_nil_of_length_pos (by omega))
  have hidx := finishBatchIndex_self w.inFlight n hn hpw
  -- unfold the finish: wait on the selected serial, then sweep
  unfold finishToSerialW
  simp only [hne, Bool.false_eq_true, if_false, hidx, lockAndCheckCompletedCommands]
  rw [checkCompleted_inFlight]
  dsimp only
  generalize hcu : max w.completedUpTo ((w.inFlight.getD n default).serial) = cu
  -- every batch up to index n is ready after the wait
  have hall : ∀ x ∈ w.inFlight.take (n + 1), fenceReady cu x.serial = true := by
    intro x hx
    obtain ⟨j, hj, hxe⟩ := List.mem_iff_getElem.mp hx
    have hjlen : j < w.inFlight.length := by
      have := hj
      simp only [List.length_take] at this
      omega
    have hjn : j ≤ n := by
      have := hj
      simp only [List.length_take] at this
      omega
    have hle : (w.inFlight.get ⟨j, hjlen⟩).serial ≤
        (w.inFlight.getD n default).serial := by
      rcases Nat.lt_or_ge j n with hlt | hge
      · exact le_of_lt (by rw [hgd]; exact sorted_serial_lt w.inFlight hpw j n hjlen hn hlt)
      · have : j = n := by omega
        subst this
        rw [hgd]
    have hxj : x = w.inFlight.get ⟨j, hjlen⟩ := by
      rw [← hxe]
      simp [List.getElem_take]
    rw [hxj]
    simp only [fenceReady, decide_eq_true_eq]
    exact le_trans hle (hcu ▸ le_max_right _ _)
  have hdw : w.inFlight.dropWhile (fun b => fenceReady cu b.serial) =
      (w.inFlight.drop (n + 1)).dropWhile (fun b => fenceReady cu b.serial) := by
    conv_lhs => rw [← List.take_append_drop (n + 1) w.inFlight]
    exact dropWhile_append_all _ _ _ hall
  rw [hdw]
  calc ((w.inFlight.drop (n + 1)).dropWhile _).length
      ≤ (w.inFlight.drop (n + 1)).length := (List.dropWhile_sublist _).length_le
    _ = w.inFlight.length - (n + 1) := List.length_drop _ _

/-- The throttle tail of `submitFrame`: whatever state the sweep left,
finishing to the serial of the batch at index `size - limit` (when the
size exceeds the limit) brings the in-flight size within the limit. -/
lemma throttle_branch_length (w3 : WorkerState)
    (hpw3 : List.Pairwise (· < ·) (w3.inFlight.map CommandBatch.serial)) :
    (if w3.inFlight.length > kInFlightCommandsLimit then
       (finishToSerialW (.fin ((w3.inFlight.getD
         (w3.inFlight.length - kInFlightCommandsLimit) default).serial)) w3).1
     else w3).inFlight.length ≤ kInFlightCommandsLimit := by
  have hk : kInFlightCommandsLimit = 100 := rfl
  by_cases h : w3.inFlight.length > kInFlightCommandsLimit
  · rw [if_pos h]
    have hb := finishToSerialW_throttle w3
      (w3.inFlight.length - kInFlightCommandsLimit) (by omega) hpw3
    omega
  · rw [if_neg h]
    omega

/-- After appending the new batch (with a serial larger than every
in-flight serial), sweeping and throttling, `submitFrame` leaves at most
`kInFlightCommandsLimit` batches in flight. -/
lemma submitFrame_length_le (g : List Nat) (qs : Nat) (w : WorkerState)
    (hpw : List.Pairwise (· < ·) ((w.inFlight.map CommandBatch.serial) ++ [qs])) :
    (submitFrame g qs w).1.inFlight.length ≤ kInFlightCommandsLimit := by
  unfold submitFrame
  dsimp only
  rw [apply_ite Prod.fst]
  dsimp only
  refine throttle_branch_length _ ?_
  refine List.Pairwise.sublist ((lockAndCheck_inFlight_sublist _).map _) ?_
  rw [submitFrameAppended_serials]
  exact hpw

/-- Appending a serial larger than every in-flight serial keeps the
serial list sorted. -/
lemma pairwise_append_serial (w : WorkerState) (c : Nat)
    (h3 : List.Pairwise (· < ·) (w.inFlight.map CommandBatch.serial))
    (h4 : ∀ b ∈ w.inFlight, b.serial < c) :
    List.Pairwise (· < ·) ((w.inFlight.map CommandBatch.serial) ++ [c]) := by
  rw [List.pairwise_append]
  refine ⟨h3, by simp, ?_⟩
  intro a ha b hb
  simp only [List.mem_singleton] at hb
  subst hb
  obtain ⟨x, hx, rfl⟩ := List.mem_map.mp ha
  exact h4 x hx

/-- `finishToSerial` on the serial of the batch at index `n` of a sorted
in-flight list waits on exactly that batch's fence. -/
lemma finishToSerialW_waits_on (w : WorkerState) (n : Nat)
    (hn : n < w.inFlight.length)
    (hpw : List.Pairwise (· < ·) (w.inFlight.map CommandBatch.serial)) :
    Event.fenceWait ((w.inFlight.getD n default).serial) ∈
      (finishToSerialW (.fin ((w.inFlight.getD n default).serial)) w).2 := by
  have hne : w.inFlight.isEmpty = false :=
    List.isEmpty_eq_false.mpr (List.ne_nil_of_length_pos (by omega))
  have hidx := finishBatchIndex_self w.inFlight n hn hpw
  unfold finishToSerialW
  simp only [hne, Bool.false_eq_true, if_false, hidx]
  exact List.mem_cons_self _ _

/-- C3: after every `FlushAndQueueSubmit` handler returns to the worker
loop, the in-flight size is at most `kInFlightCommandsLimit`; and when
the post-sweep size exceeds the limit, the handler finishes inline by
waiting on the fence of the batch at index `size - kInFlightCommandsLimit`
(the throttle serial). -/
theorem C3_throttle_bound :
    (∀ (ops : List Op) (g : List Nat),
        (runOps (ops ++ [Op.flushAndSubmit g])).worker.inFlight.length ≤
          kInFlightCommandsLimit) ∧
    (∀ (g : List Nat) (qs : Nat) (w : WorkerState),
        List.Pairwise (· < ·) ((w.inFlight.map CommandBatch.serial) ++ [qs]) →
        kInFlightCommandsLimit <
          (lockAndCheckCompletedCommands (submitFrameAppended g qs w)).1.inFlight.length →
        Event.fenceWait
            (((lockAndCheckCompletedCommands (submitFrameAppended g qs w)).1.inFlight.getD
              ((lockAndCheckCompletedCommands
                  (submitFrameAppended g qs w)).1.inFlight.length -
                kInFlightCommandsLimit) default).serial) ∈
          (submitFrame g qs w).2) := by
  constructor
  · intro ops g
    obtain ⟨h1, h2, h3, h4⟩ := ReachInv_runOps ops
    have hfold : runOps (ops ++ [Op.flushAndSubmit g]) =
        applyOpSync (runOps ops) (Op.flushAndSubmit g) := by
      simp [runOps, List.foldl_append]
    rw [hfold]
    have hstep : (applyOpSync (runOps ops) (Op.flushAndSubmit g)).worker.inFlight =
        (submitFrame g (runOps ops).facade.current (runOps ops).worker).1.inFlight := rfl
    rw [hstep]
    exact submitFrame_length_le g _ _ (pairwise_append_serial _ _ h3 h4)
  · intro g qs w hpw hover
    have hk : kInFlightCommandsLimit = 100 := rfl
    unfold submitFrame
    dsimp only
    rw [if_pos hover]
    dsimp only
    have hpw3 : List.Pairwise (· < ·)
        (((lockAndCheckCompletedCommands
          (submitFrameAppended g qs w)).1.inFlight).map CommandBatch.serial) := by
      refine List.Pairwise.sublist ((lockAndCheck_inFlight_sublist _).map _) ?_
      rw [submitFrameAppended_serials]
      exact hpw
    have hn : (lockAndCheckCompletedCommands
          (submitFrameAppended g qs w)).1.inFlight.length - kInFlightCommandsLimit <
        (lockAndCheckCompletedCommands (submitFrameAppended g qs w)).1.inFlight.length := by
      omega
    have hmem := finishToSerialW_waits_on _ _ hn hpw3
    exact List.mem_append.mpr (Or.inr hmem)

/-- C4 counterexample: with a single in-flight batch of serial 1 and a
request for serial 2, no batch reaches the requested serial, yet
`finishToSerial` selects and waits on the last batch, whose serial 1 is
not `≥ 2` — refuting, as stated, "selects and waits on the fence of the
first batch whose serial is ≥ S". -/
theorem C4_finishToSerial_counterexample :
    (({ WorkerState.init with
        inFlight := [⟨1, 2, 1, 1⟩] } : WorkerState).inFlight ≠ []) ∧
    (finishToSerialW (.fin 2)
        { WorkerState.init with inFlight := [⟨1, 2, 1, 1⟩] }).2.head? =
      some (.fenceWait 1) ∧
    Serial.leb (.fin 2) (.fin 1) = false := by decide

/-- C4 (amended): if the in-flight list is empty, `finishToSerial`
returns immediately with no wait and no state change; otherwise every
batch before the selected index misses the requested serial, the
selected batch reaches it whenever some batch does, the last batch is
selected when no batch reaches it, and the call waits on the selected
batch's fence and then runs a locked completion sweep. -/
theorem C4_finishToSerial_amended (w : WorkerState) (s : Serial) :
    (w.inFlight = [] → finishToSerialW s w = (w, [])) ∧
    (w.inFlight ≠ [] →
      (∀ x ∈ w.inFlight.take (finishBatchIndex w.inFlight s),
          Serial.leb s (.fin x.serial) = false) ∧
      ((∃ b ∈ w.inFlight, Serial.leb s (.fin b.serial) = true) →
          Serial.leb s
            (.fin ((w.inFlight.getD (finishBatchIndex w.inFlight s)
              default).serial)) = true) ∧
      ((∀ b ∈ w.inFlight, Serial.leb s (.fin b.serial) = false) →
          finishBatchIndex w.inFlight s = w.inFlight.length - 1) ∧
      finishToSerialW s w =
        ((lockAndCheckCompletedCommands
            { w with completedUpTo := (max w.completedUpTo
                ((w.inFlight.getD (finishBatchIndex w.inFlight s) default).serial)) }).1,
         .fenceWait ((w.inFlight.getD (finishBatchIndex w.inFlight s) default).serial) ::
           (lockAndCheckCompletedCommands
             { w with completedUpTo := (max w.completedUpTo
                 ((w.inFlight.getD (finishBatchIndex w.inFlight s) default).serial)) }).2)) := by
  constructor
  · intro h
    unfold finishToSerialW
    simp [h]
  · intro h
    refine ⟨?_, ?_, ?_, ?_⟩
    · intro x hx
      cases hscan : firstBatchGeq s w.inFlight with
      | some i =>
        have hidx : finishBatchIndex w.inFlight s = i := by
          unfold finishBatchIndex
          rw [hscan]
          rfl
        rw [hidx] at hx
        obtain ⟨hi, hsel, hbefore⟩ := firstBatchGeq_eq_some s w.inFlight i hscan
        obtain ⟨j, hj, hxe⟩ := List.mem_iff_getElem.mp hx
        have hjlen : j < w.inFlight.length := by
          have := hj
          simp only [List.length_take] at this
          omega
        have hji : j < i := by
          have := hj
          simp only [List.length_take] at this
          omega
        have hxj : x = w.inFlight.get ⟨j, hjlen⟩ := by
          rw [← hxe]
          simp [List.getElem_take]
        rw [hxj]
        exact hbefore j hjlen hji
      | none =>
        have hall := (firstBatchGeq_eq_none_iff s w.inFlight).mp hscan
        exact hall x (List.take_subset _ _ hx)
    · intro ⟨b, hb, hleb⟩
      cases hscan : firstBatchGeq s w.inFlight with
      | some i =>
        have hidx : finishBatchIndex w.inFlight s = i := by
          unfold finishBatchIndex
          rw [hscan]
          rfl
        obtain ⟨hi, hsel, hbefore⟩ := firstBatchGeq_eq_some s w.inFlight i hscan
        rw [hidx, List.getD_eq_getElem w.inFlight default hi]
        exact hsel
      | none =>
        have hall := (firstBatchGeq_eq_none_iff s w.inFlight).mp hscan
        rw [hall b hb] at hleb
        exact absurd hleb (by simp)
    · intro hall
      have hscan : firstBatchGeq s w.inFlight = none :=
        (firstBatchGeq_eq_none_iff s w.inFlight).mpr hall
      unfold finishBatchIndex
      rw [hscan]
      rfl
    · have hne : w.inFlight.isEmpty = false := List.isEmpty_eq_false.mpr h
      unfold finishToSerialW
      simp [hne]

/-- A worker state with 101 in-flight batches with serials 1..101 whose
fences are all unsignaled (exercises the throttle path of
`submitFrame`). -/
def throttleDemoState : WorkerState :=
  { WorkerState.init with
      inFlight := (List.range 101).map
        (fun i => { primaryCommands := 0, commandPool := 0,
                    fence := i + 1, serial := i + 1 }) }

/-- Witness for C3: with 101 unfinished batches in flight, submitting
serial 102 throttles by waiting on the fence of the batch at index
`size - kInFlightCommandsLimit` of the post-sweep list. -/
theorem C3_throttle_bound_witness :
    Event.fenceWait
        (((lockAndCheckCompletedCommands
            (submitFrameAppended [] 102 throttleDemoState)).1.inFlight.getD
          ((lockAndCheckCompletedCommands
              (submitFrameAppended [] 102 throttleDemoState)).1.inFlight.length -
            kInFlightCommandsLimit) default).serial) ∈
      (submitFrame [] 102 throttleDemoState).2 :=
  C3_throttle_bound.2 [] 102 throttleDemoState (by decide) (by decide)

/-- Witness for C4: with one in-flight batch of serial 5 and a request
for serial 3, the selected batch's serial is at least 3. -/
theorem C4_finishToSerial_amended_witness :
    Serial.leb (.fin 3)
      (.fin ((({ WorkerState.init with
          inFlight := [⟨1, 2, 5, 5⟩] } : WorkerState).inFlight.getD
        (finishBatchIndex ({ WorkerState.init with
          inFlight := [⟨1, 2, 5, 5⟩] } : WorkerState).inFlight (.fin 3))
        default).serial)) = true :=
  ((C4_finishToSerial_amended
      { WorkerState.init with inFlight := [⟨1, 2, 5, 5⟩] } (.fin 3)).2
    (by decide)).2.1 (by decide)

/-- The running `last_completed` of the batch loop is the initial value
or one of the walked serials. -/
lemma foldl_serial_mem (t : List CommandBatch) (i : Nat) :
    (t.foldl (fun _ b => b.serial) i) ∈ i :: t.map CommandBatch.serial := by
  induction t generalizing i with
  | nil => simp
  | cons b rest ih =>
    have := ih b.serial
    simp only [List.foldl_cons, List.map_cons, List.mem_cons] at this ⊢
    tauto

/-- On a sorted prefix, every walked serial is at most the final
`last_completed` of the batch loop. -/
lemma le_foldl_serial (t : List CommandBatch) (i : Nat)
    (hpw : List.Pairwise (· < ·) (t.map CommandBatch.serial)) :
    ∀ x ∈ t, x.serial ≤ t.foldl (fun _ b => b.serial) i := by
  induction t generalizing i with
  | nil => simp
  | cons b rest ih =>
    intro x hx
    rw [List.map_cons] at hpw
    have hcons := List.pairwise_cons.mp hpw
    have hpr : List.Pairwise (· < ·) (rest.map CommandBatch.serial) := hcons.2
    have hbs : ∀ y ∈ rest, b.serial < y.serial := by
      intro y hy
      exact hcons.1 y.serial (List.mem_map.mpr ⟨y, hy, rfl⟩)
    rcases List.mem_cons.mp hx with rfl | hx
    · have hmem := foldl_serial_mem rest x.serial
      simp only [List.foldl_cons]
      rcases List.mem_cons.mp hmem with heq | hmem
      · rw [heq]
      · obtain ⟨y, hy, hye⟩ := List.mem_map.mp hmem
        rw [← hye]
        exact le_of_lt (hbs y hy)
    · simp only [List.foldl_cons]
      exact ih b.serial hpr x hx

/-- C5: the completion sweep removes exactly the maximal ready prefix of
the in-flight list (stopping at the first unsignaled fence), emits
`onCompletedSerial` followed by the fence/pool/primary destruction for
each removed batch in list order, destroys and erases exactly the
maximal prefix of the garbage queue with serial at most the renderer's
`last_completed`, and destroys nothing whose owning serial is above
`last_completed`. -/
theorem C5_completion_sweep (ready : Nat → Bool) (w : WorkerState)
    (hpw : List.Pairwise (· < ·) (w.inFlight.map CommandBatch.serial)) :
    ((checkCompletedCommandsNoLock ready w).1.inFlight =
        w.inFlight.dropWhile (fun b => ready b.serial)) ∧
    ((checkCompletedCommandsNoLock ready w).1.garbageQueue =
        w.garbageQueue.dropWhile
          (fun gb => gb.serial ≤ (checkCompletedCommandsNoLock ready w).1.lastCompleted)) ∧
    ((checkCompletedCommandsNoLock ready w).2 =
        (w.inFlight.takeWhile (fun b => ready b.serial)).flatMap
          (fun b => [.completedSerial b.serial, .destroyBatch b.serial]) ++
        (w.garbageQueue.takeWhile
          (fun gb => gb.serial ≤ (checkCompletedCommandsNoLock ready w).1.lastCompleted)).map
          (fun gb => .destroyGarbage gb.serial)) ∧
    (∀ n : Nat, Event.destroyBatch n ∈ (checkCompletedCommandsNoLock ready w).2 →
        n ≤ (checkCompletedCommandsNoLock ready w).1.lastCompleted) ∧
    (∀ n : Nat, Event.destroyGarbage n ∈ (checkCompletedCommandsNoLock ready w).2 →
        n ≤ (checkCompletedCommandsNoLock ready w).1.lastCompleted) := by
  have hlc : (checkCompletedCommandsNoLock ready w).1.lastCompleted =
      (w.inFlight.takeWhile (fun b => ready b.serial)).foldl
        (fun _ b => b.serial) w.lastCompleted := by
    simp [checkCompletedCommandsNoLock, sweepBatches_lastCompleted]
  refine ⟨checkCompleted_inFlight ready w, ?_, ?_, ?_, ?_⟩
  · simp [checkCompletedCommandsNoLock, sweepGarbage_fst, sweepBatches_lastCompleted]
  · simp [checkCompletedCommandsNoLock, sweepBatches_events, sweepGarbage_events,
      sweepBatches_lastCompleted]
  · intro n hn
    have hev : (checkCompletedCommandsNoLock ready w).2 =
        (sweepBatches ready w.lastCompleted w.inFlight).2.2 ++
        (sweepGarbage (sweepBatches ready w.lastCompleted w.inFlight).2.1
          w.garbageQueue).2 := by
      simp [checkCompletedCommandsNoLock]
    rw [hev] at hn
    rcases List.mem_append.mp hn with hb | hg
    · rw [sweepBatches_events] at hb
      obtain ⟨x, hx, hxe⟩ := List.mem_flatMap.mp hb
      have hns : n = x.serial := by
        rcases List.mem_cons.mp hxe with h1 | h1
        · exact absurd h1 (by simp)
        · rcases List.mem_cons.mp h1 with h2 | h2
          · exact (Event.destroyBatch.injEq _ _).mp h2
          · exact absurd h2 (by simp)
      rw [hns, hlc]
      exact le_foldl_serial _ w.lastCompleted
        (hpw.sublist ((List.takeWhile_sublist _).map _)) x hx
    · rw [sweepGarbage_events] at hg
      obtain ⟨x, hx, hxe⟩ := List.mem_map.mp hg
      exact absurd hxe (by simp)
  · intro n hn
    have hev : (checkCompletedCommandsNoLock ready w).2 =
        (sweepBatches ready w.lastCompleted w.inFlight).2.2 ++
        (sweepGarbage (sweepBatches ready w.lastCompleted w.inFlight).2.1
          w.garbageQueue).2 := by
      simp [checkCompletedCommandsNoLock]
    rw [hev] at hn
    rcases List.mem_append.mp hn with hb | hg
    · rw [sweepBatches_events] at hb
      obtain ⟨x, hx, hxe⟩ := List.mem_flatMap.mp hb
      rcases List.mem_cons.mp hxe with h1 | h1
      · exact absurd h1 (by simp)
      · rcases List.mem_cons.mp h1 with h2 | h2
        · exact absurd h2 (by simp)
        · exact absurd h2 (by simp)
    · rw [sweepGarbage_events] at hg
      obtain ⟨x, hx, hxe⟩ := List.mem_map.mp hg
      have hns : n = x.serial := (Event.destroyGarbage.injEq _ _).mp hxe.symm
      have hx' := List.mem_takeWhile_imp hx
      simp only [decide_eq_true_eq] at hx'
      have hlc2 : (checkCompletedCommandsNoLock ready w).1.lastCompleted =
          (sweepBatches ready w.lastCompleted w.inFlight).2.1 := by
        simp [checkCompletedCommandsNoLock]
      rw [hns, hlc2]
      exact hx'

/-- Witness for C5: two batches with serials 1 and 2, fences signaled up
to serial 1 — the sweep removes exactly the first batch. -/
theorem C5_completion_sweep_witness :
    (checkCompletedCommandsNoLock (fun s => s ≤ 1)
        { WorkerState.init with
            inFlight := [⟨0, 0, 1, 1⟩, ⟨0, 0, 2, 2⟩],
            garbageQueue := [⟨[5], 1⟩, ⟨[6], 2⟩] }).1.inFlight =
      ({ WorkerState.init with
            inFlight := [⟨0, 0, 1, 1⟩, ⟨0, 0, 2, 2⟩],
            garbageQueue := [⟨[5], 1⟩, ⟨[6], 2⟩] } : WorkerState).inFlight.dropWhile
        (fun b => (fun s => s ≤ 1) b.serial) :=
  (C5_completion_sweep (fun s => s ≤ 1)
    { WorkerState.init with
        inFlight := [⟨0, 0, 1, 1⟩, ⟨0, 0, 2, 2⟩],
        garbageQueue := [⟨[5], 1⟩, ⟨[6], 2⟩] } (by decide)).1

/-- C6: evaluation at the failing input.  On the asynchronous worker, a
`Present` task whose GPU present call returns `VK_ERROR_DEVICE_LOST`
never records an error and never returns `Continue`: `handleError`
reaches `CommandProcessor::handleDeviceLost`, whose idle wait can never
finish on the worker thread, so the dispatch has no result (`none`) and
the error queue is untouched — against the claim that the error is
recorded and the handler returns `Continue` in every case.  The present
result itself was already stored in the status map before the block.
In synchronous mode the idle wait is skipped, the error is recorded and
the handler does return. -/
theorem C6_present_device_lost_deadlock :
    ((processTaskW true WorkerState.init
        (.initPresent 1 .VK_ERROR_DEVICE_LOST)).2.2 = none ∧
     (processTaskW true WorkerState.init
        (.initPresent 1 .VK_ERROR_DEVICE_LOST)).1.errors = [] ∧
     (processTaskW true WorkerState.init
        (.initPresent 1 .VK_ERROR_DEVICE_LOST)).2.1 =
       [.presentCall 1 .VK_ERROR_DEVICE_LOST]) ∧
    ((processTaskW false WorkerState.init
        (.initPresent 1 .VK_ERROR_DEVICE_LOST)).2.2 = some .Continue ∧
     (processTaskW false WorkerState.init
        (.initPresent 1 .VK_ERROR_DEVICE_LOST)).1.errors =
       [⟨.VK_ERROR_DEVICE_LOST, none, none, 0⟩]) := by decide

/-! ### The swapchain status map -/

/-- A key absent from the map has no entry. -/
lemma statusFind_eq_none_of_not_mem (sw : Nat) (m : List (Nat × VkResult))
    (h : sw ∉ m.map Prod.fst) : statusFind sw m = none := by
  induction m with
  | nil => simp [statusFind]
  | cons kv rest ih =>
    obtain ⟨k, v⟩ := kv
    simp only [List.map_cons, List.mem_cons] at h
    push_neg at h
    have hk : ¬ k = sw := fun hc => h.1 hc.symm
    simp only [statusFind, hk, if_false]
    exact ih h.2

/-- A fresh write is found under its own key. -/
lemma statusFind_insert_self (sw : Nat) (r : VkResult) (m : List (Nat × VkResult)) :
    statusFind sw (statusInsert sw r m) = some r := by
  induction m with
  | nil => simp [statusInsert, statusFind]
  | cons kv rest ih =>
    obtain ⟨k, v⟩ := kv
    by_cases hk : k = sw
    · simp [statusInsert, statusFind, hk]
    · simp only [statusInsert, statusFind, hk, if_false]
      exact ih

/-- A write under one key is invisible under any other key. -/
lemma statusFind_insert_other (sw sw' : Nat) (r : VkResult)
    (m : List (Nat × VkResult)) (hne : sw' ≠ sw) :
    statusFind sw' (statusInsert sw r m) = statusFind sw' m := by
  have hne1 : ¬ sw = sw' := fun h => hne h.symm
  induction m with
  | nil => simp [statusInsert, statusFind, hne1]
  | cons kv rest ih =>
    obtain ⟨k, v⟩ := kv
    by_cases hk : k = sw
    · subst hk
      simp [statusInsert, statusFind, hne1]
    · by_cases hk' : k = sw'
      · simp [statusInsert, statusFind, hk, hk', hne]
      · simp only [statusInsert, statusFind, hk, hk', if_false]
        exact ih

/-- Erasing a key removes its entry (keys are unique, as the map
maintains). -/
lemma statusFind_erase_self (sw : Nat) (m : List (Nat × VkResult))
    (hnodup : (m.map Prod.fst).Nodup) :
    statusFind sw (statusErase sw m) = none := by
  induction m with
  | nil => simp [statusErase, statusFind]
  | cons kv rest ih =>
    obtain ⟨k, v⟩ := kv
    rw [List.map_cons, List.nodup_cons] at hnodup
    by_cases hk : k = sw
    · simp only [statusErase, hk, if_true]
      apply statusFind_eq_none_of_not_mem
      rw [← hk]
      exact hnodup.1
    · simp only [statusErase, statusFind, hk, if_false]
      exact ih hnodup.2

/-- Erasing one key leaves every other key's entry unchanged. -/
lemma statusFind_erase_other (sw sw' : Nat) (m : List (Nat × VkResult)) (hne : sw' ≠ sw) :
    statusFind sw' (statusErase sw m) = statusFind sw' m := by
  have hne1 : ¬ sw = sw' := fun h => hne h.symm
  induction m with
  | nil => simp [statusErase]
  | cons kv rest ih =>
    obtain ⟨k, v⟩ := kv
    by_cases hk : k = sw
    · have hk' : ¬ k = sw' := by
        rw [hk]
        exact fun h => hne h.symm
      simp [statusErase, statusFind, hk, hk', hne1]
    · by_cases hk' : k = sw'
      · simp [statusErase, statusFind, hk, hk', hne]
      · simp only [statusErase, statusFind, hk, hk', if_false]
        exact ih

/-- C7: a present stores its result (any result code) in the status map
under the presented swapchain handle; reading the stored result for that
swapchain returns it and erases exactly that entry (a repeated read
finds nothing until the next present); and neither the write nor the
consuming read alters the stored status of any other swapchain. -/
theorem C7_present_isolation (w : WorkerState) (sw sw' : Nat) (r v : VkResult)
    (hnodup : (w.swapchainStatus.map Prod.fst).Nodup)
    (hne : sw' ≠ sw) :
    (statusFind sw (presentTP sw r w).2.1.swapchainStatus = some r) ∧
    (statusFind sw w.swapchainStatus = some v →
      getLastAndClearPresentResult sw w =
        (some v, { w with swapchainStatus := statusErase sw w.swapchainStatus }) ∧
      statusFind sw (getLastAndClearPresentResult sw w).2.swapchainStatus = none) ∧
    (statusFind sw' (presentTP sw r w).2.1.swapchainStatus =
      statusFind sw' w.swapchainStatus) ∧
    (statusFind sw' (getLastAndClearPresentResult sw w).2.swapchainStatus =
      statusFind sw' w.swapchainStatus) := by
  refine ⟨?_, ?_, ?_, ?_⟩
  · simp [presentTP, statusFind_insert_self]
  · intro hfind
    unfold getLastAndClearPresentResult
    rw [hfind]
    exact ⟨rfl, statusFind_erase_self sw _ hnodup⟩
  · simp [presentTP, statusFind_insert_other _ _ _ _ hne]
  · unfold getLastAndClearPresentResult
    cases hfind : statusFind sw w.swapchainStatus with
    | none => rfl
    | some x => exact statusFind_erase_other sw sw' _ hne

/-- Witness for C7: with statuses stored for swapchains 1 and 2, a
present to swapchain 1 leaves swapchain 2's entry unchanged. -/
theorem C7_present_isolation_witness :
    statusFind 2 (presentTP 1 .VK_SUCCESS
        { WorkerState.init with
            swapchainStatus :=
              [(1, .VK_SUCCESS), (2, .VK_SUBOPTIMAL_KHR)] }).2.1.swapchainStatus =
      statusFind 2 ({ WorkerState.init with
          swapchainStatus :=
            [(1, .VK_SUCCESS), (2, .VK_SUBOPTIMAL_KHR)] } : WorkerState).swapchainStatus :=
  (C7_present_isolation
    { WorkerState.init with
        swapchainStatus := [(1, .VK_SUCCESS), (2, .VK_SUBOPTIMAL_KHR)] }
    1 2 .VK_SUCCESS .VK_SUCCESS (by decide) (by decide)).2.2.1

/-- C8: the concrete execution — flush-and-submit with pending garbage
whose fence never signals, then a device-lost cleanup, then `Exit` — in
which the `Exit` handler's `finishToSerial(Infinite)` returns
immediately (the in-flight list is already empty) and
`TaskProcessor::destroy` is reached with a non-empty garbage queue, so
its `ASSERT(mInFlightCommands.empty() && mGarbageQueue.empty())`
fails. -/
theorem C8_exit_assert_after_device_lost :
    (runOps [Op.flushAndSubmit [7], Op.deviceLost, Op.exit]).worker.exitAssertObserved =
      some false ∧
    (runOps [Op.flushAndSubmit [7], Op.deviceLost, Op.exit]).worker.inFlight = [] ∧
    (runOps [Op.flushAndSubmit [7], Op.deviceLost, Op.exit]).worker.garbageQueue =
      [⟨[7], 2⟩] := by decide

/-! ### Producer/worker event separation -/

lemma filter_producer_of_all_producer (l : List Event)
    (h : ∀ e ∈ l, e.isProducerEvent = true) :
    l.filter Event.isProducerEvent = l :=
  List.filter_eq_self.mpr h

lemma filter_worker_of_all_producer (l : List Event)
    (h : ∀ e ∈ l, e.isProducerEvent = true) :
    l.filter Event.isWorkerEvent = [] := by
  rw [List.filter_eq_nil_iff]
  intro e he
  have := h e he
  simp [Event.isWorkerEvent, this]

lemma filter_worker_of_all_worker (l : List Event)
    (h : ∀ e ∈ l, e.isWorkerEvent = true) :
    l.filter Event.isWorkerEvent = l :=
  List.filter_eq_self.mpr h

lemma filter_producer_of_all_worker (l : List Event)
    (h : ∀ e ∈ l, e.isWorkerEvent = true) :
    l.filter Event.isProducerEvent = [] := by
  rw [List.filter_eq_nil_iff]
  intro e he
  have := h e he
  simp only [Event.isWorkerEvent, Bool.not_eq_true'] at this
  simp [this]

/-- The serial-assignment half of `queueCommand` emits only
producer-side events. -/
lemma queueCommandAssign_all_producer (f : FacadeState) (t : CommandProcessorTask) :
    ∀ e ∈ (queueCommandAssign f t).2.2, e.isProducerEvent = true := by
  unfold queueCommandAssign
  by_cases hsub : t.mTask = .FlushAndQueueSubmit ∨ t.mTask = .OneOffQueueSubmit
  · rw [if_pos hsub]
    intro e he
    simp only [List.mem_singleton] at he
    subst he
    rfl
  · rw [if_neg hsub]
    simp

lemma sweepBatches_all_worker (ready : Nat → Bool) (lc : Nat) (l : List CommandBatch) :
    ∀ e ∈ (sweepBatches ready lc l).2.2, e.isWorkerEvent = true := by
  rw [sweepBatches_events]
  intro e he
  obtain ⟨b, hb, hbe⟩ := List.mem_flatMap.mp he
  rcases List.mem_cons.mp hbe with rfl | h1
  · rfl
  · rcases List.mem_cons.mp h1 with rfl | h2
    · rfl
    · simp at h2

lemma sweepGarbage_all_worker (lc : Nat) (l : List GarbageAndSerial) :
    ∀ e ∈ (sweepGarbage lc l).2, e.isWorkerEvent = true := by
  rw [sweepGarbage_events]
  intro e he
  obtain ⟨x, hx, hxe⟩ := List.mem_map.mp he
  rw [← hxe]
  rfl

lemma checkCompleted_all_worker (ready : Nat → Bool) (w : WorkerState) :
    ∀ e ∈ (checkCompletedCommandsNoLock ready w).2, e.isWorkerEvent = true := by
  intro e he
  have hev : (checkCompletedCommandsNoLock ready w).2 =
      (sweepBatches ready w.lastCompleted w.inFlight).2.2 ++
      (sweepGarbage (sweepBatches ready w.lastCompleted w.inFlight).2.1
        w.garbageQueue).2 := by
    simp [checkCompletedCommandsNoLock]
  rw [hev] at he
  rcases List.mem_append.mp he with h | h
  · exact sweepBatches_all_worker _ _ _ e h
  · exact sweepGarbage_all_worker _ _ e h

lemma lockAndCheck_all_worker (w : WorkerState) :
    ∀ e ∈ (lockAndCheckCompletedCommands w).2, e.isWorkerEvent = true :=
  checkCompleted_all_worker _ w

lemma finishToSerialW_all_worker (s : Serial) (w : WorkerState) :
    ∀ e ∈ (finishToSerialW s w).2, e.isWorkerEvent = true := by
  unfold finishToSerialW
  by_cases h : w.inFlight.isEmpty
  · simp [h]
  · simp only [h, Bool.false_eq_true, if_false]
    intro e he
    rcases List.mem_cons.mp he with rfl | h1
    · rfl
    · exact lockAndCheck_all_worker _ e h1

lemma submitFrame_all_worker (g : List Nat) (qs : Nat) (w : WorkerState) :
    ∀ e ∈ (submitFrame g qs w).2, e.isWorkerEvent = true := by
  unfold submitFrame
  dsimp only
  by_cases hover :
      (lockAndCheckCompletedCommands (submitFrameAppended g qs w)).1.inFlight.length >
        kInFlightCommandsLimit
  · rw [if_pos hover]
    intro e he
    dsimp only at he
    rcases List.mem_append.mp he with h | h
    · rcases List.mem_append.mp h with h1 | h1
      · simp only [List.mem_singleton] at h1
        subst h1
        rfl
      · exact lockAndCheck_all_worker _ e h1
    · exact finishToSerialW_all_worker _ _ e h
  · rw [if_neg hover]
    intro e he
    dsimp only at he
    rcases List.mem_append.mp he with h | h
    · simp only [List.mem_singleton] at h
      subst h
      rfl
    · exact lockAndCheck_all_worker _ e h

lemma handleDeviceLost_all_worker (w : WorkerState) :
    ∀ e ∈ (handleDeviceLostTP w).2, e.isWorkerEvent = true := by
  intro e he
  obtain ⟨b, hb, hbe⟩ := List.mem_map.mp he
  rw [← hbe]
  rfl

lemma handleErrorW_all_worker (async : Bool) (code : VkResult) (w : WorkerState) :
    ∀ e ∈ (handleErrorW async code w).2.1, e.isWorkerEvent = true := by
  unfold handleErrorW
  by_cases hc : code = .VK_ERROR_DEVICE_LOST
  · rw [if_pos hc]
    cases async with
    | true =>
      rw [if_pos rfl]
      intro e he
      simp at he
    | false =>
      rw [if_neg (by simp)]
      intro e he
      dsimp only at he
      rcases List.mem_append.mp he with h | h
      · exact handleDeviceLost_all_worker _ e h
      · simp only [List.mem_singleton] at h
        subst h
        rfl
  · rw [if_neg hc]
    intro e he
    simp only [List.mem_singleton] at he
    subst he
    rfl

/-- Dispatching a task emits only worker-side events (never a serial
assignment). -/
lemma processTaskW_all_worker (async : Bool) (w : WorkerState) (t : CommandProcessorTask) :
    ∀ e ∈ (processTaskW async w t).2.1, e.isWorkerEvent = true := by
  cases htag : t.mTask
  case Invalid => simp [processTaskW, htag]
  case ProcessCommands => simp [processTaskW, htag]
  case FlushAndQueueSubmit =>
    simp only [processTaskW, htag]
    exact submitFrame_all_worker _ _ _
  case OneOffQueueSubmit =>
    simp only [processTaskW, htag]
    intro e he
    rcases List.mem_cons.mp he with rfl | h
    · rfl
    · exact lockAndCheck_all_worker _ e h
  case FinishToSerial =>
    simp only [processTaskW, htag]
    exact finishToSerialW_all_worker _ _
  case CheckCompletedCommands =>
    simp only [processTaskW, htag]
    exact lockAndCheck_all_worker _
  case Exit =>
    simp only [processTaskW, htag]
    intro e he
    rcases List.mem_append.mp he with h | h
    · exact finishToSerialW_all_worker _ _ e h
    · rcases List.mem_cons.mp h with rfl | h1
      · rfl
      · rcases List.mem_cons.mp h1 with rfl | h2
        · rfl
        · simp only [List.mem_singleton] at h2
          subst h2
          rfl
  case Present =>
    simp only [processTaskW, htag]
    by_cases h1 : (presentTP t.mSwapchain t.presentResultEnv w).1 = .VK_ERROR_OUT_OF_DATE_KHR ∨
        (presentTP t.mSwapchain t.presentResultEnv w).1 = .VK_SUBOPTIMAL_KHR
    · simp only [h1, if_true]
      intro e he
      simp only [presentTP, List.mem_singleton] at he
      subst he
      rfl
    · simp only [h1, if_false]
      by_cases h2 : (presentTP t.mSwapchain t.presentResultEnv w).1 ≠ .VK_SUCCESS
      · rw [if_pos h2]
        intro e he
        dsimp only at he
        rcases List.mem_append.mp he with h | h
        · simp only [presentTP, List.mem_singleton] at h
          subst h
          rfl
        · exact handleErrorW_all_worker _ _ _ e h
      · rw [if_neg h2]
        intro e he
        simp only [presentTP, List.mem_singleton] at he
        subst he
        rfl

/-- In synchronous mode every dispatch completes and returns `Continue`
(the device-lost idle wait is skipped, line 938). -/
lemma processTaskW_sync_completes (w : WorkerState) (t : CommandProcessorTask) :
    (processTaskW false w t).2.2 = some .Continue := by
  cases htag : t.mTask <;> simp only [processTaskW, htag]
  case Present =>
    by_cases h1 : (presentTP t.mSwapchain t.presentResultEnv w).1 = .VK_ERROR_OUT_OF_DATE_KHR ∨
        (presentTP t.mSwapchain t.presentResultEnv w).1 = .VK_SUBOPTIMAL_KHR
    · simp [h1]
    · simp only [h1, if_false]
      by_cases h2 : (presentTP t.mSwapchain t.presentResultEnv w).1 ≠ .VK_SUCCESS
      · rw [if_pos h2]
        unfold handleErrorW
        by_cases h3 : t.presentResultEnv = .VK_ERROR_DEVICE_LOST <;> simp [h3, presentTP]
      · rw [if_neg h2]

/-- A dispatch that completes on the asynchronous worker behaves exactly
as in synchronous mode: the only mode-sensitive path is the device-lost
branch of `handleError`, which never completes asynchronously. -/
lemma processTaskW_async_complete_eq (w : WorkerState) (t : CommandProcessorTask)
    (h : (processTaskW true w t).2.2 ≠ none) :
    processTaskW true w t = processTaskW false w t := by
  cases htag : t.mTask <;> simp only [processTaskW, htag]
  case Present =>
    by_cases h1 : (presentTP t.mSwapchain t.presentResultEnv w).1 = .VK_ERROR_OUT_OF_DATE_KHR ∨
        (presentTP t.mSwapchain t.presentResultEnv w).1 = .VK_SUBOPTIMAL_KHR
    · simp only [h1, if_true]
    · simp only [h1, if_false]
      by_cases h2 : (presentTP t.mSwapchain t.presentResultEnv w).1 ≠ .VK_SUCCESS
      · rw [if_pos h2, if_pos h2]
        by_cases h3 : t.presentResultEnv = .VK_ERROR_DEVICE_LOST
        · exfalso
          apply h
          simp only [processTaskW, htag, h1, if_false]
          rw [if_pos h2]
          simp [handleErrorW, h3, presentTP]
        · have heq : handleErrorW true (presentTP t.mSwapchain t.presentResultEnv w).1
              (presentTP t.mSwapchain t.presentResultEnv w).2.1 =
              handleErrorW false (presentTP t.mSwapchain t.presentResultEnv w).1
                (presentTP t.mSwapchain t.presentResultEnv w).2.1 := by
            unfold handleErrorW
            have h3' : ¬ (presentTP t.mSwapchain t.presentResultEnv w).1 =
                .VK_ERROR_DEVICE_LOST := by
              simpa [presentTP] using h3
            rw [if_neg h3', if_neg h3']
          rw [heq]
      · rw [if_neg h2, if_neg h2]

/-- A worker fold that completes on the asynchronous worker equals the
synchronous fold. -/
lemma foldProcess_true_complete_eq (ts : List CommandProcessorTask) :
    ∀ w : WorkerState, (foldProcess true w ts).2.2 = true →
      foldProcess true w ts = foldProcess false w ts := by
  induction ts with
  | nil => intro w h; rfl
  | cons t ts ih =>
    intro w h
    cases hres : (processTaskW true w t).2.2 with
    | none =>
      exfalso
      simp only [foldProcess, hres] at h
      exact Bool.noConfusion h
    | some r =>
      have heq := processTaskW_async_complete_eq w t (by rw [hres]; exact fun hc => by cases hc)
      have hflag : (foldProcess true (processTaskW true w t).1 ts).2.2 = true := by
        simpa only [foldProcess, hres] using h
      have hsync := processTaskW_sync_completes w t
      calc foldProcess true w (t :: ts)
          = ((foldProcess true (processTaskW true w t).1 ts).1,
             (processTaskW true w t).2.1 ++
               (foldProcess true (processTaskW true w t).1 ts).2.1,
             (foldProcess true (processTaskW true w t).1 ts).2.2) := by
            simp only [foldProcess, hres]
        _ = ((foldProcess false (processTaskW false w t).1 ts).1,
             (processTaskW false w t).2.1 ++
               (foldProcess false (processTaskW false w t).1 ts).2.1,
             (foldProcess false (processTaskW false w t).1 ts).2.2) := by
            rw [← heq, ih _ hflag]
        _ = foldProcess false w (t :: ts) := by
            simp only [foldProcess, hsync]

/-- The synchronous run is the producer fold followed by the worker
fold, with the producer and worker events interleaved step by step. -/
lemma syncRunQ_spec (ops : List Op) :
    ∀ (f : FacadeState) (w : WorkerState),
      (syncRunQ f w ops).1 = (foldAssign f ops).1 ∧
      (syncRunQ f w ops).2.1 = (foldProcess false w (foldAssign f ops).2.1).1 ∧
      (syncRunQ f w ops).2.2.filter Event.isProducerEvent = (foldAssign f ops).2.2 ∧
      (syncRunQ f w ops).2.2.filter Event.isWorkerEvent =
        (foldProcess false w (foldAssign f ops).2.1).2.1 := by
  induction ops with
  | nil => exact fun f w => ⟨rfl, rfl, rfl, rfl⟩
  | cons op ops ih =>
    intro f w
    obtain ⟨ih1, ih2, ih3, ih4⟩ :=
      ih (queueCommandAssign f op.toTask).1
        (processTaskW false w (queueCommandAssign f op.toTask).2.1).1
    have hprod := queueCommandAssign_all_producer f op.toTask
    have hwork := processTaskW_all_worker false w (queueCommandAssign f op.toTask).2.1
    have hsync := processTaskW_sync_completes w (queueCommandAssign f op.toTask).2.1
    refine ⟨ih1, ?_, ?_, ?_⟩
    · show (syncRunQ (queueCommandAssign f op.toTask).1
          (processTaskW false w (queueCommandAssign f op.toTask).2.1).1 ops).2.1 = _
      rw [ih2]
      simp only [foldAssign, foldProcess, hsync]
    · show ((queueCommandAssign f op.toTask).2.2 ++
          (processTaskW false w (queueCommandAssign f op.toTask).2.1).2.1 ++
          (syncRunQ (queueCommandAssign f op.toTask).1
            (processTaskW false w (queueCommandAssign f op.toTask).2.1).1 ops).2.2).filter
          Event.isProducerEvent = _
      rw [List.filter_append, List.filter_append,
        filter_producer_of_all_producer _ hprod,
        filter_producer_of_all_worker _ hwork, ih3]
      simp [foldAssign]
    · show ((queueCommandAssign f op.toTask).2.2 ++
          (processTaskW false w (queueCommandAssign f op.toTask).2.1).2.1 ++
          (syncRunQ (queueCommandAssign f op.toTask).1
            (processTaskW false w (queueCommandAssign f op.toTask).2.1).1 ops).2.2).filter
          Event.isWorkerEvent = _
      rw [List.filter_append, List.filter_append,
        filter_worker_of_all_producer _ hprod,
        filter_worker_of_all_worker _ hwork, ih4]
      simp only [foldAssign, foldProcess, hsync, List.nil_append]

/-- The asynchronous interleaved run: whatever valid schedule is chosen,
the final facade state is the producer fold, the final worker state is
the (asynchronous, hence deadlock-aware) worker fold over the
already-queued tasks followed by the newly-assigned ones — and that
fold completed, since a deadlocked worker can never drain the queue —
and the producer/worker projections of the trace are the folds' event
lists. -/
lemma asyncRun_spec (sched : List Bool) :
    ∀ (ops : List Op) (q : List CommandProcessorTask) (f : FacadeState)
      (w : WorkerState) (tr : List Event)
      (out : FacadeState × WorkerState × List Event),
      asyncRun sched ops q f w tr = some out →
      out.1 = (foldAssign f ops).1 ∧
      out.2.1 = (foldProcess true w (q ++ (foldAssign f ops).2.1)).1 ∧
      out.2.2.filter Event.isProducerEvent =
        tr.filter Event.isProducerEvent ++ (foldAssign f ops).2.2 ∧
      out.2.2.filter Event.isWorkerEvent =
        tr.filter Event.isWorkerEvent ++
          (foldProcess true w (q ++ (foldAssign f ops).2.1)).2.1 ∧
      (foldProcess true w (q ++ (foldAssign f ops).2.1)).2.2 = true := by
  induction sched with
  | nil =>
    intro ops q f w tr out h
    cases ops with
    | cons op ops => simp [asyncRun] at h
    | nil =>
      cases q with
      | cons t q => simp [asyncRun] at h
      | nil =>
        simp only [asyncRun, Option.some.injEq] at h
        subst h
        refine ⟨rfl, rfl, by simp [foldAssign], by simp [foldAssign, foldProcess], rfl⟩
  | cons b sched ih =>
    intro ops q f w tr out h
    cases b with
    | true =>
      cases ops with
      | nil => simp [asyncRun] at h
      | cons op ops =>
        by_cases hq : op.isQueueOp
        · simp only [asyncRun, hq, if_true] at h
          obtain ⟨ih1, ih2, ih3, ih4, ih5⟩ := ih ops
            (q ++ [(queueCommandAssign f op.toTask).2.1])
            (queueCommandAssign f op.toTask).1 w
            (tr ++ (queueCommandAssign f op.toTask).2.2) out h
          have hprod := queueCommandAssign_all_producer f op.toTask
          have happ : (q ++ [(queueCommandAssign f op.toTask).2.1]) ++
              (foldAssign (queueCommandAssign f op.toTask).1 ops).2.1 =
              q ++ ((queueCommandAssign f op.toTask).2.1 ::
                (foldAssign (queueCommandAssign f op.toTask).1 ops).2.1) := by
            simp
          refine ⟨ih1, ?_, ?_, ?_, ?_⟩
          · rw [ih2, happ]
            rfl
          · rw [ih3, List.filter_append,
              filter_producer_of_all_producer _ hprod]
            simp [foldAssign]
          · rw [ih4, List.filter_append,
              filter_worker_of_all_producer _ hprod, happ]
            simp [foldAssign]
          · have hfa : (foldAssign f (op :: ops)).2.1 =
                (queueCommandAssign f op.toTask).2.1 ::
                  (foldAssign (queueCommandAssign f op.toTask).1 ops).2.1 := rfl
            rw [hfa, ← happ]
            exact ih5
        · simp [asyncRun, hq] at h
    | false =>
      cases q with
      | nil => simp [asyncRun] at h
      | cons t q =>
        simp only [asyncRun] at h
        cases hres : (processTaskW true w t).2.2 with
        | none =>
          rw [hres] at h
          simp at h
        | some r =>
          rw [hres] at h
          simp only at h
          obtain ⟨ih1, ih2, ih3, ih4, ih5⟩ := ih ops q f (processTaskW true w t).1
            (tr ++ (processTaskW true w t).2.1) out h
          have hwork := processTaskW_all_worker true w t
          refine ⟨ih1, ?_, ?_, ?_, ?_⟩
          · rw [ih2]
            simp only [List.cons_append, foldProcess, hres]
            rfl
          · rw [ih3, List.filter_append, filter_producer_of_all_worker _ hwork]
            simp
          · rw [ih4, List.filter_append, filter_worker_of_all_worker _ hwork]
            simp only [List.cons_append, foldProcess, hres, List.append_assoc]
            rfl
          · simp only [List.cons_append, foldProcess, hres]
            exact ih5

/-- C9 counterexample: for the two-submit producer script, the schedule
that enqueues both tasks before the worker runs yields a different total
event sequence than synchronous mode (the second serial assignment
happens before the first GPU submit), refuting, as stated, that the
sequences of renderer-visible side effects are identical. -/
theorem C9_sync_async_counterexample :
    (asyncRun [true, true, false, false]
        [Op.flushAndSubmit [], Op.flushAndSubmit []] []
        FacadeState.init WorkerState.init []).map (fun out => out.2.2) ≠
      some (syncRunQ FacadeState.init WorkerState.init
        [Op.flushAndSubmit [], Op.flushAndSubmit []]).2.2 := by decide

/-- C9 (amended): for every producer script of queued operations and
every valid asynchronous schedule, the final facade and worker states
equal the synchronous ones, and the producer-side (serial assignments)
and worker-side (submits, presents, sweeps, waits, errors) projections
of the event sequence each coincide with the synchronous ones; only the
interleaving between the two projections can differ. -/
theorem C9_sync_async_equivalence (sched : List Bool) (ops : List Op)
    (out : FacadeState × WorkerState × List Event)
    (h : asyncRun sched ops [] FacadeState.init WorkerState.init [] = some out) :
    out.1 = (syncRunQ FacadeState.init WorkerState.init ops).1 ∧
    out.2.1 = (syncRunQ FacadeState.init WorkerState.init ops).2.1 ∧
    out.2.2.filter Event.isProducerEvent =
      ((syncRunQ FacadeState.init WorkerState.init ops).2.2).filter
        Event.isProducerEvent ∧
    out.2.2.filter Event.isWorkerEvent =
      ((syncRunQ FacadeState.init WorkerState.init ops).2.2).filter
        Event.isWorkerEvent := by
  obtain ⟨ha1, ha2, ha3, ha4, ha5⟩ := asyncRun_spec sched ops [] FacadeState.init
    WorkerState.init [] out h
  have hbr := foldProcess_true_complete_eq
    ([] ++ (foldAssign FacadeState.init ops).2.1) WorkerState.init ha5
  obtain ⟨hs1, hs2, hs3, hs4⟩ := syncRunQ_spec ops FacadeState.init WorkerState.init
  refine ⟨by rw [ha1, hs1], ?_, ?_, ?_⟩
  · rw [ha2, hs2, hbr]
    simp
  · rw [ha3, hs3]
    rfl
  · rw [ha4, hs4, hbr]
    simp

/-- Witness for C9 (amended): a one-present script run asynchronously
with the enqueue-then-process schedule produces the synchronous worker
projection. -/
theorem C9_sync_async_equivalence_witness :
    ((⟨⟨⟨2⟩, 1, 2⟩,
       { WorkerState.init with swapchainStatus := [(1, .VK_SUCCESS)] },
       [.presentCall 1 .VK_SUCCESS]⟩ :
        FacadeState × WorkerState × List Event).2.2).filter Event.isWorkerEvent =
      ((syncRunQ FacadeState.init WorkerState.init
        [Op.present 1 .VK_SUCCESS]).2.2).filter Event.isWorkerEvent :=
  (C9_sync_async_equivalence [true, false] [Op.present 1 .VK_SUCCESS]
    ⟨⟨⟨2⟩, 1, 2⟩,
     { WorkerState.init with swapchainStatus := [(1, .VK_SUCCESS)] },
     [.presentCall 1 .VK_SUCCESS]⟩
    (by decide)).2.2.2

/-- C10: when the error queue is empty, `getAndClearPendingError`
returns `{VK_SUCCESS, nullptr, nullptr, 0}` and leaves the queue
unchanged; when non-empty it returns the oldest record and removes
exactly that record, so repeated calls drain the queue in the order the
worker recorded the errors. -/
theorem C10_getAndClearPendingError :
    (getAndClearPendingError [] = (⟨.VK_SUCCESS, none, none, 0⟩, [])) ∧
    (∀ (e : VkError) (rest : List VkError),
        getAndClearPendingError (e :: rest) = (e, rest)) ∧
    (∀ q : List VkError, drainErrors q.length q = (q, [])) := by
  refine ⟨rfl, fun e rest => rfl, ?_⟩
  intro q
  induction q with
  | nil => rfl
  | cons e rest ih =>
    simp [drainErrors, getAndClearPendingError, ih]

end CommandProcessorModel
